import Mathlib

/-!
# NTRIP-Analyser — verification of the RTCM 3.x core

A shallow embedding, in Lean 4, of the core routines of the NTRIP-Analyser
repository (`src/rtcm3x_parser.c`, `src/ntrip_handler.c`, `src/nmea_parser.c`),
together with proofs of the behavioural properties claimed by the
natural-language specification.

Byte buffers are modelled as `List Nat` whose elements are byte values
(`< 256` where it matters); machine integers are modelled as `Nat`/`Int`
with explicit `% 2 ^ w` where overflow or a signed reinterpretation occurs.
Textual output of the decoders is not modelled; instead each specialized
decoder returns an `Option` of the structured fields it extracts (`none`
corresponds to the "payload too short" refusal paths, which emit no
structured fields).
-/

/-! ## Bit reader (`get_bits`, `extract_signed`, `extract_signed38`) -/

/-- One iteration of the `get_bits` loop body: bit `j` of the buffer,
MSB-first (`bit 0` is the most-significant bit of byte 0).  Mirrors
`(buf[(start_bit+i)/8] >> (7 - (start_bit+i)%8)) & 1`. -/
def getBitAt (buf : List Nat) (j : Nat) : Nat :=
  (buf.getD (j / 8) 0 >>> (7 - j % 8)) &&& 1

/-- `get_bits(buf, start_bit, bit_len)` from `rtcm3x_parser.c`:
`result = (result << 1) | bit`, for `i = 0 .. bit_len-1`. -/
def get_bits (buf : List Nat) (start_bit bit_len : Nat) : Nat :=
  (List.range bit_len).foldl
    (fun result i => (result <<< 1) ||| getBitAt buf (start_bit + i)) 0

/-- `extract_signed(buf, start_bit, bit_len)` from `rtcm3x_parser.c`:
read `bit_len` bits unsigned, then `val |= (~0ULL) << bit_len` when the
sign bit is set, and reinterpret the 64-bit word as a signed integer.
For `bit_len = 64` the C shift is a shift by the operand width, which is
undefined behaviour (C11 6.5.7p3); the targets this program is compiled
for (x86-64, ARM64) mask the shift count to `bit_len % 64`, which is what
this model does, so there the whole word is ORed with all-ones and the
function returns `-1` whenever the sign bit is set.  The 64-bit wrap of
the shift and the final `int64_t` cast are modelled with explicit
`% 2 ^ 64`. -/
def extract_signed (buf : List Nat) (start_bit bit_len : Nat) : Int :=
  let val := get_bits buf start_bit bit_len
  let val2 := if val &&& (1 <<< (bit_len - 1)) ≠ 0
              then val ||| (((2 ^ 64 - 1) <<< (bit_len % 64)) % 2 ^ 64)
              else val
  if val2 < 2 ^ 63 then (val2 : Int) else (val2 : Int) - 2 ^ 64

/-- `extract_signed38(buf, start_bit)` from `rtcm3x_parser.c`. -/
def extract_signed38 (buf : List Nat) (start_bit : Nat) : Int :=
  let raw := get_bits buf start_bit 38
  if (raw >>> 37) &&& 1 ≠ 0
  then -((((1 <<< 38) - raw : Nat)) : Int)
  else (raw : Int)

/-! ## CRC-24Q (`crc24q`) -/

/-- One iteration of the inner `for (j = 0; j < 8; j++)` loop of `crc24q`. -/
def crcStep (c : Nat) : Nat :=
  if c &&& 0x800000 ≠ 0 then ((c <<< 1) ^^^ 0x1864CFB) &&& 0xFFFFFF
  else (c <<< 1) &&& 0xFFFFFF

/-- The eight inner iterations performed for one input byte. -/
def crcStep8 (c : Nat) : Nat :=
  crcStep (crcStep (crcStep (crcStep (crcStep (crcStep (crcStep (crcStep c)))))))

/-- One iteration of the outer loop of `crc24q`: `crc ^= data[i] << 16`,
followed by the eight shift/xor steps. -/
def crcUpdate (c b : Nat) : Nat := crcStep8 (c ^^^ (b <<< 16))

/-- `crc24q(data, length)` from `rtcm3x_parser.c`: polynomial `0x1864CFB`,
initial value 0, processing bytes MSB-first. -/
def crc24q (data : List Nat) : Nat := data.foldl crcUpdate 0

/-- The three CRC bytes of a frame body, most-significant byte first, as
they appear on the wire (`data[3+len] = crc >> 16`, …). -/
def crcBytes (c : Nat) : List Nat := [c >>> 16, (c >>> 8) % 256, c % 256]

/-! ## Bit-reader round-trip (C4)

The spec quantifies over "a buffer encoded by writing `value` MSB-first at
`start_bit`".  `encode_bits` is that reference encoding: bit `j` of the
buffer (MSB-first) is bit `len-1-(j-start)` of `value` inside the field and
0 elsewhere. -/

/-- Bit `j` (absolute, MSB-first) of the reference encoding. -/
def putBit (value start len j : Nat) : Nat :=
  if start ≤ j ∧ j < start + len then (value >>> (len - 1 - (j - start))) &&& 1 else 0

/-- Byte `k` of the reference encoding (eight bits, MSB-first). -/
def putByte (value start len k : Nat) : Nat :=
  putBit value start len (8 * k) * 128 + putBit value start len (8 * k + 1) * 64 +
  putBit value start len (8 * k + 2) * 32 + putBit value start len (8 * k + 3) * 16 +
  putBit value start len (8 * k + 4) * 8 + putBit value start len (8 * k + 5) * 4 +
  putBit value start len (8 * k + 6) * 2 + putBit value start len (8 * k + 7)

/-- The buffer holding `value` written MSB-first at `start` for `len` bits
(`⌈(start+len)/8⌉` bytes, as the spec requires the caller to supply). -/
def encode_bits (value start len : Nat) : List Nat :=
  (List.range ((start + len + 7) / 8)).map (putByte value start len)

/-! ## Specialized decoder models

Textual output is rendering and is not modelled; each decoder model returns
the structured fields its source counterpart extracts, or `none` on the
"Payload too short!" refusal path (which extracts nothing).  The geodetic
conversion and distance printout of 1005/1006 are display-only and omitted. -/

/-- The inline 38-bit sign extension of `decode_rtcm_1005` / `1006`:
`(raw & (1<<37)) ? (int64_t)(raw | ~0x3FFFFFFFFF) : (int64_t)raw`.
`~0x3FFFFFFFFF = 2^64 - 2^38`; the `int64_t` reinterpretation subtracts
`2^64` because bit 63 of the OR result is set. -/
def signed38OfRaw (raw : Nat) : Int :=
  if raw &&& (1 <<< 37) ≠ 0
  then (((raw ||| (2 ^ 64 - 2 ^ 38)) : Nat) : Int) - 2 ^ 64
  else (raw : Int)

/-- The inline small-width sign corrections of the MSM decoders:
`if (raw & (1 << (w-1))) raw -= (1 << w)`. -/
def signedOfRaw (raw w : Nat) : Int :=
  if raw &&& (1 <<< (w - 1)) ≠ 0
  then (raw : Int) - ((1 <<< w : Nat) : Int)
  else (raw : Int)

/-- Structured fields extracted by `decode_rtcm_1005`. -/
structure R1005 where
  msg_number : Nat
  ref_station_id : Nat
  itrf_year : Nat
  gps_ind : Nat
  glo_ind : Nat
  gal_ind : Nat
  ref_station_ind : Nat
  ecef_x : Int
  osc_ind : Nat
  ecef_y : Int
  ecef_z : Int
deriving Repr, DecidableEq

/-- `decode_rtcm_1005(payload, payload_len, config)` from `rtcm3x_parser.c`,
field extraction part.  Refuses (`none`, printing "Payload too short!")
when `payload_len < 19`; otherwise reads the fields at the source's bit
offsets (12+12+6+1+1+1+1, X(38), osc(1), reserved(1), Y(38), reserved(2),
Z(38)). -/
def decode_rtcm_1005 (payload : List Nat) (payload_len : Nat) : Option R1005 :=
  if payload_len < 19 then none
  else some
    { msg_number := get_bits payload 0 12
      ref_station_id := get_bits payload 12 12
      itrf_year := get_bits payload 24 6
      gps_ind := get_bits payload 30 1
      glo_ind := get_bits payload 31 1
      gal_ind := get_bits payload 32 1
      ref_station_ind := get_bits payload 33 1
      ecef_x := signed38OfRaw (get_bits payload 34 38)
      osc_ind := get_bits payload 72 1
      ecef_y := signed38OfRaw (get_bits payload 74 38)
      ecef_z := signed38OfRaw (get_bits payload 114 38) }

/-- Per-satellite block of an MSM7 message (8+4+10+14 bits). -/
structure Msm7Sat where
  prn : Nat
  rough_range_int : Nat
  ext_info : Nat
  rough_range_mod : Nat
  rough_phrate : Int
deriving Repr, DecidableEq

/-- Per-cell block of an MSM7 message (20+24+10+1+10+15 bits). -/
structure Msm7Cell where
  prn : Nat
  sig : Nat
  fine_pr : Int
  fine_ph : Int
  lock_ind : Nat
  half_cyc : Nat
  cnr : Nat
  fine_phrate : Int
deriving Repr, DecidableEq

/-- Structured fields extracted by `decode_rtcm_msm7_full`. -/
structure Msm7Data where
  ref_station_id : Nat
  epoch_time : Nat
  mm_flag : Nat
  iods : Nat
  clk_steering : Nat
  ext_clk : Nat
  df_smoothing : Nat
  smoothing_int : Nat
  sat_mask : Nat
  sig_mask : Nat
  sat_prns : List Nat
  sig_ids : List Nat
  num_cells : Nat
  sats : List Msm7Sat
  cells : List Msm7Cell
deriving Repr, DecidableEq

/-- `decode_rtcm_msm7_full(payload, payload_len, gnss_name, msg_type)` from
`rtcm3x_parser.c`.  Refuses when `payload_len < 20`.  The source keeps a
running bit cursor; here each field is read at its computed absolute offset:
the fixed header prelude occupies bits 0..60, the 64-bit satellite mask bits
61..124, the 32-bit signal mask bits 125..156, the `num_sats × num_sigs`
cell-mask bits from 157 (satellite-major), the satellite data block follows
(four arrays of 8-, 4-, 10- and 14-bit fields), then six per-cell arrays of
20-, 24-, 10-, 1-, 10- and 15-bit fields, each traversed in the same
satellite-major active-cell order.  All active cells are decoded (no
truncation of the cell loop). -/
def decode_rtcm_msm7_full (payload : List Nat) (payload_len : Nat) : Option Msm7Data :=
  if payload_len < 20 then none
  else
    let sat_mask := get_bits payload 61 64
    let sig_mask := get_bits payload 125 32
    let sat_prns := (List.range 64).filterMap
      (fun i => if (sat_mask >>> (63 - i)) &&& 1 = 1 then some (i + 1) else none)
    let sig_ids := (List.range 32).filterMap
      (fun i => if (sig_mask >>> (31 - i)) &&& 1 = 1 then some (i + 1) else none)
    let ns := sat_prns.length
    let ng := sig_ids.length
    let cellBit := fun s g => get_bits payload (157 + s * ng + g) 1
    let cellIdx := (List.range ns).flatMap
      (fun s => (List.range ng).filterMap
        (fun g => if cellBit s g = 1 then some (s, g) else none))
    let nc := cellIdx.length
    let satStart := 157 + ns * ng
    let cellStart := satStart + 36 * ns
    some
      { ref_station_id := get_bits payload 0 12
        epoch_time := get_bits payload 12 30
        mm_flag := get_bits payload 42 1
        iods := get_bits payload 43 3
        clk_steering := get_bits payload 53 2
        ext_clk := get_bits payload 55 2
        df_smoothing := get_bits payload 57 1
        smoothing_int := get_bits payload 58 3
        sat_mask := sat_mask
        sig_mask := sig_mask
        sat_prns := sat_prns
        sig_ids := sig_ids
        num_cells := nc
        sats := (List.range ns).map (fun s =>
          { prn := sat_prns.getD s 0
            rough_range_int := get_bits payload (satStart + 8 * s) 8
            ext_info := get_bits payload (satStart + 8 * ns + 4 * s) 4
            rough_range_mod := get_bits payload (satStart + 12 * ns + 10 * s) 10
            rough_phrate := signedOfRaw (get_bits payload (satStart + 22 * ns + 14 * s) 14) 14 })
        cells := cellIdx.enum.map (fun p =>
          { prn := sat_prns.getD p.2.1 0
            sig := sig_ids.getD p.2.2 0
            fine_pr := signedOfRaw (get_bits payload (cellStart + 20 * p.1) 20) 20
            fine_ph := signedOfRaw (get_bits payload (cellStart + 20 * nc + 24 * p.1) 24) 24
            lock_ind := get_bits payload (cellStart + 44 * nc + 10 * p.1) 10
            half_cyc := get_bits payload (cellStart + 54 * nc + p.1) 1
            cnr := get_bits payload (cellStart + 55 * nc + 10 * p.1) 10
            fine_phrate := signedOfRaw (get_bits payload (cellStart + 65 * nc + 15 * p.1) 15) 15 }) }

/-! ## `analyze_rtcm_message` -/

/-- The declared payload length of a frame buffer:
`((data[1] & 0x03) << 8) | data[2]`. -/
def rtcm_msg_length (data : List Nat) : Nat :=
  ((data.getD 1 0 &&& 0x03) <<< 8) ||| data.getD 2 0

/-- The 12-bit message type of a frame buffer:
`((data[3] << 4) | (data[4] >> 4)) & 0x0FFF`. -/
def rtcm_msg_type (data : List Nat) : Nat :=
  ((data.getD 3 0 <<< 4) ||| (data.getD 4 0 >>> 4)) &&& 0x0FFF

/-- The trailing CRC of a frame, as extracted by `analyze_rtcm_message`:
`(data[3+len] << 16) | (data[3+len+1] << 8) | data[3+len+2]`. -/
def rtcm_crc_extracted (data : List Nat) : Nat :=
  (data.getD (3 + rtcm_msg_length data) 0 <<< 16) |||
  (data.getD (4 + rtcm_msg_length data) 0 <<< 8) |||
  data.getD (5 + rtcm_msg_length data) 0

/-- The CRC comparison `crc_calc == crc_extracted` performed by
`analyze_rtcm_message` (`crc_calc = crc24q(data, 3 + msg_length)`). -/
def rtcm_crc_ok (data : List Nat) : Bool :=
  crc24q (data.take (3 + rtcm_msg_length data)) == rtcm_crc_extracted data

/-- The MSM7 family dispatched to `decode_rtcm_msm7_full`
(1077, 1087, 1097, 1117, 1127, 1137). -/
def is_msm7_type (t : Nat) : Bool :=
  t == 1077 || t == 1087 || t == 1097 || t == 1117 || t == 1127 || t == 1137

/-- Result of one `analyze_rtcm_message` call: the `int` return value, plus
the structured fields extracted by the specialized decoders modelled here
(1005 and the MSM7 family).  The remaining dispatch branches (1006, 1019,
MSM4, 1007, 1008, 1013, 1033, 1045, 1230, 1012, generic) emit text only and
carry no recorded fields. -/
structure AnalyzeResult where
  ret : Int
  r1005 : Option R1005
  msm7 : Option Msm7Data
deriving Repr, DecidableEq

/-- `analyze_rtcm_message(data, length, suppress_output, config)` from
`rtcm3x_parser.c`.  Returns `-1` when `length < 6` or the first byte is not
`0xD3`; otherwise always returns the 12-bit message type.  The CRC is
computed and compared only for printing (see `rtcm_crc_ok`); it does not
influence dispatch, the return value, or the decoders.  Decoders run only
when `suppress_output` is false, each invoked as
`decode_rtcm_XXXX(&data[3], msg_length)`. -/
def analyze_rtcm_message (data : List Nat) (length : Nat) (suppress_output : Bool) :
    AnalyzeResult :=
  if length < 6 then { ret := -1, r1005 := none, msm7 := none }
  else if data.getD 0 0 = 0xD3 then
    { ret := (rtcm_msg_type data : Int)
      r1005 := if ¬suppress_output ∧ rtcm_msg_type data = 1005
               then decode_rtcm_1005 (data.drop 3) (rtcm_msg_length data) else none
      msm7 := if ¬suppress_output ∧ is_msm7_type (rtcm_msg_type data)
              then decode_rtcm_msm7_full (data.drop 3) (rtcm_msg_length data) else none }
  else { ret := -1, r1005 := none, msm7 := none }

/-! ## The stream framer of `ntrip_handler.c`

`start_ntrip_stream` and `analyze_message_types` share the same framing
loop over the persistent `msg_buffer` / `msg_buffer_len` state:

```
while (msg_buffer_len >= 3) {
    if (msg_buffer[0] != 0xD3) { shift left by one; continue; }
    msg_length = ((msg_buffer[1] & 0x03) << 8) | msg_buffer[2];
    full_frame = msg_length + 6;
    if (msg_buffer_len < full_frame) break;
    analyze_rtcm_message(msg_buffer, full_frame, ...);
    drop full_frame bytes;
}
```

`framerInner` is that inner loop; it returns the remaining buffer and the
frames handed to `analyze_rtcm_message` (each exactly `full_frame` bytes
from the front of the buffer), in order. -/

def framerInner (st : List Nat) : List Nat × List (List Nat) :=
  if st.length < 3 then (st, [])
  else if st.getD 0 0 ≠ 0xD3 then framerInner (st.drop 1)
  else
    let msg_length := ((st.getD 1 0 &&& 0x03) <<< 8) ||| st.getD 2 0
    if st.length < msg_length + 6 then (st, [])
    else
      let r := framerInner (st.drop (msg_length + 6))
      (r.1, st.take (msg_length + 6) :: r.2)
termination_by st.length
decreasing_by
  · simp only [List.length_drop]
    omega
  · simp only [List.length_drop]
    omega

/-- The preamble scan at the top of the outer loop: when the persistent
buffer is empty, discard incoming bytes up to the first `0xD3`. -/
def scanIfEmpty (st chunk : List Nat) : List Nat :=
  if st.length = 0 then chunk.dropWhile (fun b => b ≠ 0xD3) else chunk

/-- The per-`recv` outer loop (`while (buf_pos < received)`): when the
persistent buffer is empty, scan the incoming bytes for the `0xD3`
preamble; copy at most `BUFFER_SIZE - msg_buffer_len` bytes (BUFFER_SIZE =
4096), run the inner framing loop, repeat on the remaining incoming bytes.
The `min ... = 0` bail-out mirrors a `to_copy == 0` iteration, which cannot
occur after the inner loop has run (it always leaves fewer than 1029 bytes
buffered). -/
def processChunk (st chunk : List Nat) : List Nat × List (List Nat) :=
  if chunk.length = 0 then (st, [])
  else
    let chunk' := scanIfEmpty st chunk
    if chunk'.length = 0 then (st, [])
    else if min chunk'.length (4096 - st.length) = 0 then (st, [])
    else
      let r1 := framerInner (st ++ chunk'.take (min chunk'.length (4096 - st.length)))
      let r2 := processChunk r1.1 (chunk'.drop (min chunk'.length (4096 - st.length)))
      (r2.1, r1.2 ++ r2.2)
termination_by chunk.length
decreasing_by
  have hd : (scanIfEmpty st chunk).length ≤ chunk.length := by
    unfold scanIfEmpty
    split
    · exact (List.dropWhile_sublist _).length_le
    · exact le_rfl
  simp only [List.length_drop]
  omega

/-- Feeding a byte sequence one byte per `processChunk` call, threading the
persistent state and collecting emitted frames. -/
def feedBytes (st : List Nat) (bytes : List Nat) : List Nat × List (List Nat) :=
  bytes.foldl
    (fun p b =>
      let r := processChunk p.1 [b]
      (r.1, p.2 ++ r.2))
    (st, [])

/-! ## Statistics aggregator (`analyze_message_types` in `ntrip_handler.c`)

Wall-clock seconds (`double` in the source) are modelled as exact
rationals. -/

/-- `MsgStats` from `ntrip_handler.c`; arrays are zero-initialized. -/
structure MsgStats where
  count : Nat
  min_dt : ℚ
  max_dt : ℚ
  sum_dt : ℚ
  last_time : ℚ
  seen : Bool
deriving Repr, DecidableEq

def MsgStats.init : MsgStats := ⟨0, 0, 0, 0, 0, false⟩

/-- The per-frame statistics update of `analyze_message_types`:
first sighting records the time only; later sightings update
min/max/sum of the inter-arrival delta (`min_dt == 0` doubles as the
"no delta yet" sentinel); `count` always increments. -/
def recordObs (s : MsgStats) (now : ℚ) : MsgStats :=
  if ¬s.seen then
    { count := s.count + 1, min_dt := 0, max_dt := 0, sum_dt := 0,
      last_time := now, seen := true }
  else
    let dt := now - s.last_time
    { count := s.count + 1
      min_dt := if dt < s.min_dt ∨ s.min_dt = 0 then dt else s.min_dt
      max_dt := if dt > s.max_dt then dt else s.max_dt
      sum_dt := s.sum_dt + dt
      last_time := now
      seen := true }

/-- The guarded array update: `if (msg_type > 0 && msg_type < MAX_MSG_TYPES)`
(`MAX_MSG_TYPES = 4096`), then update `stats[msg_type]`. -/
def statsUpdate (stats : Nat → MsgStats) (msg_type : Int) (now : ℚ) : Nat → MsgStats :=
  if 0 < msg_type ∧ msg_type < 4096 then
    fun i => if (i : Int) = msg_type then recordObs (stats i) now else stats i
  else stats

/-- Successive inter-arrival deltas `t_{i+1} - t_i` of a time list. -/
def deltas (ts : List ℚ) : List ℚ := (ts.zip ts.tail).map (fun p => p.2 - p.1)

/-- Minimum of a delta list, `0` when empty (the sentinel). -/
def listMin : List ℚ → ℚ
  | [] => 0
  | d :: ds => ds.foldl min d

/-- Maximum of a delta list, `0` when empty. -/
def listMax : List ℚ → ℚ
  | [] => 0
  | d :: ds => ds.foldl max d

/-! ## Satellite aggregator (`extract_satellites` in `ntrip_handler.c`) -/

/-- `get_gnss_id_from_rtcm(msg_type)` from `ntrip_handler.c`. -/
def get_gnss_id_from_rtcm (msg_type : Nat) : Nat :=
  if 1070 ≤ msg_type ∧ msg_type < 1080 then 1
  else if 1080 ≤ msg_type ∧ msg_type < 1090 then 2
  else if 1090 ≤ msg_type ∧ msg_type < 1100 then 3
  else if 1110 ≤ msg_type ∧ msg_type < 1120 then 4
  else if 1120 ≤ msg_type ∧ msg_type < 1130 then 5
  else if 1130 ≤ msg_type ∧ msg_type < 1140 then 6
  else 0

/-- `GnssSatStats` from `ntrip_handler.h`: `sat_seen` is the
`int sat_seen[64]` bit-set (entries 0/1), `count` the distinct count. -/
structure GnssSatStats where
  gnss_id : Nat
  sat_seen : List Nat
  count : Nat
deriving Repr, DecidableEq

/-- `SatStatsSummary` from `ntrip_handler.h` (`gnss_count` is the list
length; `MAX_GNSS = 8`). -/
structure SatStatsSummary where
  gnss : List GnssSatStats
deriving Repr, DecidableEq

/-- The satellite-mask scan of `extract_satellites`: starting at bit
`24 + 6 + 1 + 3 = 34` of the payload, one bit per slot `s = 1..64`; a set
bit marks `sat_seen[s-1]`, incrementing `count` on first sighting.
(Here `s` runs 0-based over `List.range 64`, so slot `s+1` reads bit
`34 + s`.) -/
def scanSats (data : List Nat) (g : GnssSatStats) : GnssSatStats :=
  (List.range 64).foldl
    (fun g s =>
      if get_bits data (34 + s) 1 = 1 then
        if g.sat_seen.getD s 0 = 0 then
          { g with sat_seen := g.sat_seen.set s 1, count := g.count + 1 }
        else g
      else g)
    g

/-- `extract_satellites(data, len, msg_type, summary)` from
`ntrip_handler.c`: derive the constellation id, locate or create (while
fewer than `MAX_GNSS = 8` entries) its `GnssSatStats`, and scan the
satellite mask into it. -/
def extract_satellites (data : List Nat) (msg_type : Nat)
    (summary : SatStatsSummary) : SatStatsSummary :=
  let gnss_id := get_gnss_id_from_rtcm msg_type
  if gnss_id = 0 then summary
  else
    match summary.gnss.findIdx? (fun g => g.gnss_id == gnss_id) with
    | some idx =>
        ⟨summary.gnss.set idx (scanSats data (summary.gnss.getD idx ⟨gnss_id, [], 0⟩))⟩
    | none =>
        if summary.gnss.length < 8 then
          ⟨summary.gnss ++ [scanSats data ⟨gnss_id, List.replicate 64 0, 0⟩]⟩
        else summary

/-! ## NMEA encoder (`nmea_parser.c`)

`double` coordinates are modelled as exact rationals; `printf` fixed-point
rendering is modelled with round-half-up at the fourth decimal. -/

/-- One decimal digit character (`d ≤ 9` at every use). -/
def digitChar10 (d : Nat) : Char :=
  match d with
  | 0 => '0' | 1 => '1' | 2 => '2' | 3 => '3' | 4 => '4'
  | 5 => '5' | 6 => '6' | 7 => '7' | 8 => '8' | _ => '9'

/-- Decimal digits of `n`, most significant first, with descending fuel
(`fuel ≥ n` suffices since the argument strictly shrinks at each step). -/
def decDigitsCore : Nat → Nat → List Char
  | 0, n => [digitChar10 n]
  | fuel + 1, n =>
      if n < 10 then [digitChar10 n]
      else decDigitsCore fuel (n / 10) ++ [digitChar10 (n % 10)]

/-- Decimal digits of `n`, most significant first (the `%d` rendering). -/
def decDigits (n : Nat) : List Char := decDigitsCore n n

def decRepr (n : Nat) : String := ⟨decDigits n⟩

/-- One uppercase hexadecimal digit character (`d ≤ 15` at every use). -/
def hexDigitChar (d : Nat) : Char :=
  match d with
  | 0 => '0' | 1 => '1' | 2 => '2' | 3 => '3' | 4 => '4'
  | 5 => '5' | 6 => '6' | 7 => '7' | 8 => '8' | 9 => '9'
  | 10 => 'A' | 11 => 'B' | 12 => 'C' | 13 => 'D' | 14 => 'E' | _ => 'F'

/-- Uppercase hexadecimal digits of `n`, most significant first (`%X`),
with descending fuel. -/
def hexDigitsCore : Nat → Nat → List Char
  | 0, n => [hexDigitChar n]
  | fuel + 1, n =>
      if n < 16 then [hexDigitChar n]
      else hexDigitsCore fuel (n / 16) ++ [hexDigitChar (n % 16)]

/-- Uppercase hexadecimal digits of `n`, most significant first (`%X`). -/
def hexDigits (n : Nat) : List Char := hexDigitsCore n n

/-- Zero-pad on the left to width `w` (the `0`-flag of `printf`). -/
def padZeros (w : Nat) (s : String) : String :=
  ⟨List.replicate (w - s.length) '0' ++ s.data⟩

def fmt02d (n : Nat) : String := padZeros 2 (decRepr n)

def fmt03d (n : Nat) : String := padZeros 3 (decRepr n)

def fmt02X (n : Nat) : String := padZeros 2 ⟨hexDigits n⟩

/-- `%07.4f` for a nonnegative rational: round to four decimals
(half-up), render `int.frac` and zero-pad the whole to width 7. -/
def fmt07_4 (q : ℚ) : String :=
  let n : Nat := (q * 10000 + 1 / 2).floor.toNat
  padZeros 7 (decRepr (n / 10000) ++ "." ++ padZeros 4 (decRepr (n % 10000)))

/-- `nmea_checksum(sentence)` from `nmea_parser.c`: XOR of the bytes up to
(excluding) the first `'*'` or the end of the string. -/
def nmeaChecksumList : List Char → Nat → Nat
  | [], c => c
  | ch :: rest, c => if ch = '*' then c else nmeaChecksumList rest (c ^^^ (ch.toNat % 256))

def nmea_checksum (sentence : String) : Nat := nmeaChecksumList sentence.data 0

/-- The sentence body assembled by `create_gngga_sentence` (everything
between `$` and `*`):
`GNGGA,%s,%02d%07.4f,%c,%03d%07.4f,%c,1,08,1.0,1.5,M,0.0,M,,`. -/
def ggaBody (latitude longitude : ℚ) (hour minute second : Nat) : String :=
  let timestr := fmt02d hour ++ fmt02d minute ++ fmt02d second ++ ".00"
  let lat_hem := if latitude ≥ 0 then "N" else "S"
  let lat_abs := if latitude ≥ 0 then latitude else -latitude
  let lat_deg : Nat := lat_abs.floor.toNat
  let lat_min : ℚ := (lat_abs - (lat_deg : ℚ)) * 60
  let lon_hem := if longitude ≥ 0 then "E" else "W"
  let lon_abs := if longitude ≥ 0 then longitude else -longitude
  let lon_deg : Nat := lon_abs.floor.toNat
  let lon_min : ℚ := (lon_abs - (lon_deg : ℚ)) * 60
  "GNGGA," ++ timestr ++ "," ++ fmt02d lat_deg ++ fmt07_4 lat_min ++ "," ++ lat_hem ++
  "," ++ fmt03d lon_deg ++ fmt07_4 lon_min ++ "," ++ lon_hem ++ ",1,08,1.0,1.5,M,0.0,M,,"

/-- `create_gngga_sentence(latitude, longitude, buffer)` from
`nmea_parser.c`; the wall-clock UTC time sampled by the source is passed
in as `hour:minute:second`.  Produces
`"$" ++ body ++ "*" ++ checksum ++ "\r\n"`. -/
def create_gngga_sentence (latitude longitude : ℚ) (hour minute second : Nat) : String :=
  "$" ++ ggaBody latitude longitude hour minute second ++ "*" ++
  fmt02X (nmea_checksum (ggaBody latitude longitude hour minute second)) ++ "\x0d\x0a"

/-- Population count (number of set bits), by binary recursion: the
spec-side definition of "popcount of a mask". -/
def popcount (n : Nat) : Nat :=
  if n = 0 then 0 else popcount (n / 2) + n % 2
termination_by n
decreasing_by
  exact Nat.div_lt_self (by omega) (by norm_num)



/-- Bytewise XOR over all characters of a string: the spec-side definition
of the NMEA checksum over the body between `$` and `*`. -/
def xorBytes (s : String) : Nat := s.data.foldl (fun c ch => c ^^^ (ch.toNat % 256)) 0

/-- Well-formedness of the satellite summary: each entry has a 64-slot 0/1
bit-set whose distinct-count equals its cardinality. -/
def satInv (summary : SatStatsSummary) : Prop :=
  ∀ g ∈ summary.gnss, g.sat_seen.length = 64 ∧
    (∀ x ∈ g.sat_seen, x = 0 ∨ x = 1) ∧
    g.count = g.sat_seen.countP (fun x => x == 1)

/-! ### Concrete test vectors -/

/-- A crafted 70-byte MSM7 payload: satellite mask `0x8000000000000001`
(payload bits 61 and 124), signal mask `0x80000001` (bits 125 and 156),
all four cell-mask bits set (bits 157..160), all other fields zero. -/
def msm7pay : List Nat :=
  (List.range 70).map (fun i =>
    if i = 7 then 0x04 else if i = 15 then 0x0C
    else if i = 19 then 0x0F else if i = 20 then 0x80 else 0)

/-- A complete 31-byte type-1005 frame whose three trailing CRC bytes are
zero and therefore wrong. -/
def frame1005bad : List Nat := [0xD3, 0x00, 0x19, 0x3E, 0xD0] ++ List.replicate 26 0

/-- A 6-byte buffer declaring a 32-byte payload (declared frame length 38):
a truncated type-1005 frame. -/
def truncated1005 : List Nat := [0xD3, 0x00, 0x20, 0x3E, 0xD0, 0x00]

/-- A complete 8-byte frame of type 1005 whose declared payload (2 bytes) is
below the 19-byte minimum of `decode_rtcm_1005`. -/
def short1005 : List Nat := [0xD3, 0x00, 0x02, 0x3E, 0xD0, 0x00, 0x01, 0x02]

/-- A complete, CRC-correct 10-byte RTCM frame (type 1005, 4-byte payload). -/
def goodframe : List Nat := [0xD3, 0x00, 0x04, 0x3E, 0xD0, 0x00, 0x00, 0x05, 0xBA, 0x2F]


/-! ### Bitwise toolbox -/

theorem Nat.and_xor_distrib_right' (a b m : Nat) :
    (a ^^^ b) &&& m = (a &&& m) ^^^ (b &&& m) := by
  apply Nat.eq_of_testBit_eq
  intro i
  simp only [Nat.testBit_and, Nat.testBit_xor]
  cases a.testBit i <;> cases b.testBit i <;> cases m.testBit i <;> rfl

theorem Nat.shiftLeft_xor_distrib (a b n : Nat) :
    (a ^^^ b) <<< n = (a <<< n) ^^^ (b <<< n) := by
  apply Nat.eq_of_testBit_eq
  intro i
  simp only [Nat.testBit_xor, Nat.testBit_shiftLeft]
  by_cases h : n ≤ i <;> simp [h]

/-- Splitting a natural number at bit `k`:
the high bits re-shifted, xor the low bits, give back the number. -/
theorem Nat.shiftRight_shiftLeft_xor_mod (c k : Nat) :
    ((c >>> k) <<< k) ^^^ (c % 2 ^ k) = c := by
  apply Nat.eq_of_testBit_eq
  intro i
  simp only [Nat.testBit_xor, Nat.testBit_shiftLeft, Nat.testBit_shiftRight,
    Nat.testBit_mod_two_pow]
  by_cases h : i < k
  · simp [h, Nat.not_le.mpr h]
  · have h' : k ≤ i := Nat.le_of_not_lt h
    have : k + (i - k) = i := by omega
    simp [h, h', this]

theorem Nat.xor_left_comm' (a b c : Nat) : a ^^^ (b ^^^ c) = b ^^^ (a ^^^ c) := by
  rw [← Nat.xor_assoc, Nat.xor_comm a b, Nat.xor_assoc]

theorem Nat.xor_cancel_left' (a b : Nat) : a ^^^ (a ^^^ b) = b := by
  rw [← Nat.xor_assoc, Nat.xor_self, Nat.zero_xor]

theorem crcStep_eq (c : Nat) :
    crcStep c = ((c <<< 1) &&& 0xFFFFFF) ^^^
      (if c.testBit 23 then 0x864CFB else 0) := by
  unfold crcStep
  have h23 : c &&& 0x800000 = (c.testBit 23).toNat * 0x800000 := by
    have := Nat.and_two_pow c 23
    norm_num at this ⊢
    exact this
  cases hb : c.testBit 23
  · rw [hb] at h23; norm_num at h23
    simp [h23]
  · rw [hb] at h23; norm_num at h23
    rw [if_pos (by omega), if_pos rfl, Nat.and_xor_distrib_right']
    norm_num
    decide

/-- The shift/xor step is linear over XOR. -/
theorem crcStep_xor (x y : Nat) :
    crcStep (x ^^^ y) = crcStep x ^^^ crcStep y := by
  rw [crcStep_eq, crcStep_eq, crcStep_eq, Nat.shiftLeft_xor_distrib,
    Nat.and_xor_distrib_right', Nat.testBit_xor]
  cases hx : x.testBit 23 <;> cases hy : y.testBit 23 <;>
    simp [Nat.xor_assoc, Nat.xor_comm, Nat.xor_left_comm', Nat.xor_cancel_left',
      Nat.xor_self, Nat.xor_zero, Nat.zero_xor]

theorem crcStep8_xor (x y : Nat) :
    crcStep8 (x ^^^ y) = crcStep8 x ^^^ crcStep8 y := by
  simp only [crcStep8, crcStep_xor]

theorem crcStep8_zero : crcStep8 0 = 0 := rfl

set_option maxRecDepth 100000 in
set_option maxHeartbeats 2000000 in
theorem crcQ1 : ∀ b < 256,
    crcStep8 (crcStep8 (crcStep8 (b <<< 8))) ^^^ crcStep8 (crcStep8 (b <<< 16)) = 0 := by
  decide

set_option maxRecDepth 100000 in
set_option maxHeartbeats 2000000 in
theorem crcQ0 : ∀ b < 256,
    crcStep8 (crcStep8 (crcStep8 b)) ^^^ crcStep8 (b <<< 16) = 0 := by
  decide

/-- Feeding the two low bytes of the register (after the high byte has been
cancelled) through two further updates drives the register to zero. -/
theorem crcStep8_key (b1 b0 : Nat) (h1 : b1 < 256) (h0 : b0 < 256) :
    crcStep8 (crcStep8 (crcStep8 ((b1 <<< 8) ^^^ b0) ^^^ (b1 <<< 16)) ^^^ (b0 <<< 16)) = 0 := by
  simp only [crcStep8_xor]
  have e1 : crcStep8 (crcStep8 (b1 <<< 16)) =
      crcStep8 (crcStep8 (crcStep8 (b1 <<< 8))) :=
    (Nat.xor_eq_zero.mp (crcQ1 b1 h1)).symm
  have e0 : crcStep8 (b0 <<< 16) = crcStep8 (crcStep8 (crcStep8 b0)) :=
    (Nat.xor_eq_zero.mp (crcQ0 b0 h0)).symm
  rw [e1, e0]
  simp [Nat.xor_assoc, Nat.xor_comm, Nat.xor_left_comm', Nat.xor_cancel_left',
    Nat.xor_self, Nat.xor_zero, Nat.zero_xor]

/-- Feeding the three bytes of the running CRC back into the CRC register
drives it to zero.  This is the key algebraic fact behind the
"`crc24q` of a frame with its CRC appended is 0" property. -/
theorem crcUpdate_self_bytes (c : Nat) :
    crcUpdate (crcUpdate (crcUpdate c (c >>> 16)) ((c >>> 8) % 256)) (c % 256) = 0 := by
  have hsplit16 : c ^^^ ((c >>> 16) <<< 16) = c % 2 ^ 16 := by
    calc c ^^^ ((c >>> 16) <<< 16)
        = (((c >>> 16) <<< 16) ^^^ (c % 2 ^ 16)) ^^^ ((c >>> 16) <<< 16) := by
          rw [Nat.shiftRight_shiftLeft_xor_mod]
      _ = c % 2 ^ 16 := by
          rw [Nat.xor_comm ((c >>> 16) <<< 16) (c % 2 ^ 16), Nat.xor_assoc,
            Nat.xor_self, Nat.xor_zero]
  have hb1 : (c >>> 8) % 256 = (c % 2 ^ 16) >>> 8 := by
    simp only [Nat.shiftRight_eq_div_pow]
    norm_num
    omega
  have hb0 : c % 256 = (c % 2 ^ 16) % 256 := by omega
  have hdecomp : c % 2 ^ 16 = ((((c % 2 ^ 16) >>> 8)) <<< 8) ^^^ ((c % 2 ^ 16) % 256) := by
    have := Nat.shiftRight_shiftLeft_xor_mod (c % 2 ^ 16) 8
    norm_num at this ⊢
    omega
  have hb1lt : (c % 2 ^ 16) >>> 8 < 256 := by
    rw [Nat.shiftRight_eq_div_pow]
    omega
  have hb0lt : (c % 2 ^ 16) % 256 < 256 := by omega
  calc crcUpdate (crcUpdate (crcUpdate c (c >>> 16)) ((c >>> 8) % 256)) (c % 256)
      = crcStep8 (crcStep8 (crcStep8 ((((c % 2 ^ 16) >>> 8) <<< 8) ^^^ ((c % 2 ^ 16) % 256))
          ^^^ (((c % 2 ^ 16) >>> 8) <<< 16)) ^^^ (((c % 2 ^ 16) % 256) <<< 16)) := by
        simp only [crcUpdate, hsplit16, hb1, hb0, ← hdecomp]
    _ = 0 := crcStep8_key _ _ hb1lt hb0lt

/-- `crc24q` over an appended suffix continues from the running value. -/
theorem crc24q_append (xs ys : List Nat) :
    crc24q (xs ++ ys) = ys.foldl crcUpdate (crc24q xs) := by
  simp only [crc24q, List.foldl_append]

/-- **C3.** `crc24q` computes CRC-24Q with polynomial `0x1864CFB`, initial
value 0, no reflection and no final XOR, MSB-first: the three known vectors
hold, and for every frame body, appending the three trailing CRC bytes (the
24-bit `crc24q` of the body, most-significant byte first) yields a buffer
whose `crc24q` is zero. -/
theorem crc24q_spec :
    crc24q [] = 0x000000 ∧
    crc24q [0x00] = 0x000000 ∧
    crc24q [0x01] = 0x864CFB ∧
    ∀ body : List Nat, crc24q (body ++ crcBytes (crc24q body)) = 0 := by
  refine ⟨rfl, by decide, by decide, ?_⟩
  intro body
  rw [crc24q_append, crcBytes]
  exact crcUpdate_self_bytes (crc24q body)


theorem getBitAt_lt (buf : List Nat) (j : Nat) : getBitAt buf j < 2 :=
  lt_of_le_of_lt Nat.and_le_right (by norm_num)

theorem putBit_lt (v s l j : Nat) : putBit v s l j < 2 := by
  unfold putBit
  split
  · exact lt_of_le_of_lt Nat.and_le_right (by norm_num)
  · norm_num

theorem encode_bits_getD (v s l k : Nat) (h : k < (s + l + 7) / 8) :
    (encode_bits v s l).getD k 0 = putByte v s l k := by
  unfold encode_bits
  rw [List.getD_eq_getElem?_getD, List.getElem?_map, List.getElem?_range h]
  rfl

/-- A buffer produced by `encode_bits` reads back the intended bit at every
position inside the field. -/
theorem getBitAt_encode (v s l j : Nat) (hj : j < s + l) :
    getBitAt (encode_bits v s l) j = putBit v s l j := by
  have hdiv : j / 8 < (s + l + 7) / 8 := by omega
  have hsplit : 8 * (j / 8) + j % 8 = j := by omega
  have hb0 := putBit_lt v s l (8 * (j / 8))
  have hb1 := putBit_lt v s l (8 * (j / 8) + 1)
  have hb2 := putBit_lt v s l (8 * (j / 8) + 2)
  have hb3 := putBit_lt v s l (8 * (j / 8) + 3)
  have hb4 := putBit_lt v s l (8 * (j / 8) + 4)
  have hb5 := putBit_lt v s l (8 * (j / 8) + 5)
  have hb6 := putBit_lt v s l (8 * (j / 8) + 6)
  have hb7 := putBit_lt v s l (8 * (j / 8) + 7)
  unfold getBitAt
  rw [encode_bits_getD v s l (j / 8) hdiv]
  unfold putByte
  conv_rhs => rw [← hsplit]
  rw [Nat.shiftRight_eq_div_pow, Nat.and_one_is_mod]
  have h8 : j % 8 = 0 ∨ j % 8 = 1 ∨ j % 8 = 2 ∨ j % 8 = 3 ∨ j % 8 = 4 ∨
      j % 8 = 5 ∨ j % 8 = 6 ∨ j % 8 = 7 := by omega
  rcases h8 with h | h | h | h | h | h | h | h <;> rw [h] <;> norm_num <;> omega

/-- Disjoint OR is addition: `(b <<< k) ||| a = (b <<< k) + a` when `a < 2^k`. -/
theorem Nat.shiftLeft_or_add (b k a : Nat) (ha : a < 2 ^ k) :
    (b <<< k) ||| a = (b <<< k) + a := by
  have h1 : ((b <<< k) ||| a) % 2 ^ k = a := by
    have ha' : ∀ i, k ≤ i → a.testBit i = false := fun i hi =>
      Nat.testBit_lt_two_pow (lt_of_lt_of_le ha (Nat.pow_le_pow_right (by norm_num) hi))
    have : ((b <<< k) ||| a) % 2 ^ k = a % 2 ^ k := by
      apply Nat.eq_of_testBit_eq
      intro i
      rw [Nat.testBit_mod_two_pow, Nat.testBit_mod_two_pow, Nat.testBit_or,
        Nat.testBit_shiftLeft]
      by_cases hik : i < k
      · simp [hik, Nat.not_le.mpr hik]
      · simp [hik]
    rw [this, Nat.mod_eq_of_lt ha]
  have h2 : ((b <<< k) ||| a) / 2 ^ k = b := by
    have heq : ((b <<< k) ||| a) >>> k = b := by
      apply Nat.eq_of_testBit_eq
      intro i
      rw [Nat.testBit_shiftRight, Nat.testBit_or, Nat.testBit_shiftLeft]
      have hfa : a.testBit (k + i) = false :=
        Nat.testBit_lt_two_pow
          (lt_of_lt_of_le ha (Nat.pow_le_pow_right (by norm_num) (Nat.le_add_right k i)))
      simp [hfa, Nat.le_add_right]
    rw [← Nat.shiftRight_eq_div_pow]
    exact heq
  have hdm := Nat.div_add_mod ((b <<< k) ||| a) (2 ^ k)
  rw [h1, h2] at hdm
  rw [Nat.shiftLeft_eq] at hdm ⊢
  rw [Nat.mul_comm (2 ^ k) b] at hdm
  omega

theorem or_bit (a b : Nat) (hb : b < 2) : (a <<< 1) ||| b = 2 * a + b := by
  have := Nat.shiftLeft_or_add a 1 b (by omega)
  rw [this, Nat.shiftLeft_eq, pow_one]
  omega

theorem get_bits_zero (buf : List Nat) (s : Nat) : get_bits buf s 0 = 0 := rfl

theorem get_bits_succ (buf : List Nat) (s n : Nat) :
    get_bits buf s (n + 1) = 2 * get_bits buf s n + getBitAt buf (s + n) := by
  unfold get_bits
  rw [List.range_succ, List.foldl_append]
  simp only [List.foldl_cons, List.foldl_nil]
  exact or_bit _ _ (getBitAt_lt buf (s + n))

theorem get_bits_lt (buf : List Nat) (s n : Nat) : get_bits buf s n < 2 ^ n := by
  induction n with
  | zero => rw [get_bits_zero]; norm_num
  | succ n ih =>
    rw [get_bits_succ, pow_succ]
    have := getBitAt_lt buf (s + n)
    omega

/-- `get_bits` recovers `value mod 2^n` from any buffer whose bits inside the
field are the bits of `value`, MSB-first. -/
theorem get_bits_of_putBits (buf : List Nat) (s : Nat) :
    ∀ (n v : Nat), (∀ i, i < n → getBitAt buf (s + i) = (v >>> (n - 1 - i)) &&& 1) →
    get_bits buf s n = v % 2 ^ n := by
  intro n
  induction n with
  | zero => intro v _; rw [get_bits_zero, pow_zero, Nat.mod_one]
  | succ n ih =>
    intro v h
    rw [get_bits_succ]
    have hlast : getBitAt buf (s + n) = v % 2 := by
      have hh := h n (Nat.lt_succ_self n)
      have e : n + 1 - 1 - n = 0 := by omega
      rw [e, Nat.shiftRight_zero, Nat.and_one_is_mod] at hh
      exact hh
    have hrest : get_bits buf s n = (v / 2) % 2 ^ n := by
      apply ih
      intro i hi
      have hh := h i (Nat.lt_succ_of_lt hi)
      have e : n + 1 - 1 - i = 1 + (n - 1 - i) := by omega
      rw [e, Nat.shiftRight_add, Nat.shiftRight_one] at hh
      exact hh
    have hp : (2 : Nat) ^ (n + 1) = 2 * 2 ^ n := by rw [pow_succ, Nat.mul_comm]
    rw [hlast, hrest, hp]
    have := @Nat.mod_mul 2 (2 ^ n) v
    omega

/-- If the top bit of the field is set, the unsigned value is at least
`2^(len-1)`. -/
theorem ge_of_testBit (v k : Nat) (h : v.testBit k = true) : 2 ^ k ≤ v := by
  rw [Nat.testBit_to_div_mod] at h
  have h1 : v / 2 ^ k % 2 = 1 := of_decide_eq_true h
  have h2 : v / 2 ^ k ≠ 0 := by
    intro hz
    rw [hz] at h1
    norm_num at h1
  exact (Nat.one_le_div_iff (by positivity)).mp (Nat.pos_of_ne_zero h2)

/-- If the top bit of the 64-bit word is clear and the word fits 64 bits,
it fits 63 bits. -/
theorem lt_two_pow_63 (v : Nat) (hlt : v < 2 ^ 64) (h : v.testBit 63 = false) :
    v < 2 ^ 63 := by
  rw [Nat.testBit_to_div_mod] at h
  have h0 : ¬(v / 2 ^ 63 % 2 = 1) := of_decide_eq_false h
  norm_num at h0 hlt ⊢
  omega

/-- A 64-bit word ORed with the all-ones 64-bit mask is all ones. -/
theorem or_all_ones (v : Nat) (hv : v < 2 ^ 64) : v ||| (2 ^ 64 - 1) = 2 ^ 64 - 1 := by
  apply Nat.eq_of_testBit_eq
  intro i
  rw [Nat.testBit_or, Nat.testBit_two_pow_sub_one]
  rcases lt_or_ge i 64 with hi | hi
  · simp [hi]
  · have hvi : v.testBit i = false :=
      Nat.testBit_lt_two_pow (lt_of_lt_of_le hv (Nat.pow_le_pow_right (by norm_num) hi))
    rw [hvi]
    simp [Nat.not_lt.mpr hi]

/-- At `bit_len = 64` with the sign bit set, the masked-shift semantics ORs
the word with all-ones, so `extract_signed` returns `-1` regardless of the
other 63 bits. -/
theorem extract_signed_64 (buf : List Nat) (start_bit : Nat)
    (h : (get_bits buf start_bit 64).testBit 63 = true) :
    extract_signed buf start_bit 64 = -1 := by
  have hvlt : get_bits buf start_bit 64 < 2 ^ 64 := get_bits_lt buf start_bit 64
  simp only [extract_signed]
  rw [show (64 : Nat) - 1 = 63 from rfl]
  have hand : get_bits buf start_bit 64 &&& (1 <<< 63) ≠ 0 := by
    rw [Nat.shiftLeft_eq, one_mul, Nat.and_two_pow, h]
    simp only [Bool.toNat_true, one_mul]
    positivity
  rw [if_pos hand]
  rw [show ((2 ^ 64 - 1) <<< (64 % 64)) % 2 ^ 64 = 2 ^ 64 - 1 from by norm_num]
  rw [or_all_ones _ hvlt]
  rw [if_neg (by norm_num)]
  norm_num

/-- `extract_signed` is `get_bits` followed by two's-complement
sign-extension from bit `bit_len - 1`, for fields of at most 63 bits. -/
theorem extract_signed_eq (buf : List Nat) (start_bit bit_len : Nat)
    (h1 : 1 ≤ bit_len) (h63 : bit_len ≤ 63) :
    extract_signed buf start_bit bit_len =
      (if (get_bits buf start_bit bit_len).testBit (bit_len - 1)
       then (get_bits buf start_bit bit_len : Int) - 2 ^ bit_len
       else (get_bits buf start_bit bit_len : Int)) := by
  have hvlt : get_bits buf start_bit bit_len < 2 ^ bit_len := get_bits_lt buf start_bit bit_len
  simp only [extract_signed]
  by_cases hsb : (get_bits buf start_bit bit_len).testBit (bit_len - 1) = true
  · -- sign bit set
    have hand : get_bits buf start_bit bit_len &&& (1 <<< (bit_len - 1)) ≠ 0 := by
      rw [Nat.shiftLeft_eq, one_mul, Nat.and_two_pow, hsb]
      simp only [Bool.toNat_true, one_mul]
      positivity
    rw [if_pos hand, if_pos hsb]
    have hm : ((2 ^ 64 - 1) <<< (bit_len % 64)) % 2 ^ 64 = 2 ^ 64 - 2 ^ bit_len := by
      rw [Nat.mod_eq_of_lt (show bit_len < 64 by omega), Nat.shiftLeft_eq]
      have hle : (2 : Nat) ^ bit_len ≤ 2 ^ 64 :=
        Nat.pow_le_pow_right (by norm_num) (by omega)
      have hpos : (0 : Nat) < 2 ^ bit_len := by positivity
      have hlit : (2 : Nat) ^ 64 = 18446744073709551616 := by norm_num
      rw [hlit] at hle ⊢
      omega
    have hpow : (2 : Nat) ^ (64 - bit_len) * 2 ^ bit_len = 2 ^ 64 := by
      rw [← pow_add]
      congr 1
      omega
    have hdisj := Nat.shiftLeft_or_add (2 ^ (64 - bit_len) - 1) bit_len
      (get_bits buf start_bit bit_len) hvlt
    have hmul : ((2 : Nat) ^ (64 - bit_len) - 1) * 2 ^ bit_len = 2 ^ 64 - 2 ^ bit_len := by
      rw [Nat.sub_mul, one_mul, hpow]
    rw [Nat.shiftLeft_eq, hmul] at hdisj
    rw [hm, Nat.or_comm, hdisj]
    have hge := ge_of_testBit _ _ hsb
    have h2l : (2 : Nat) ^ bit_len = 2 * 2 ^ (bit_len - 1) := by
      conv_lhs => rw [show bit_len = (bit_len - 1) + 1 by omega]
      rw [pow_succ, Nat.mul_comm]
    have h3 : (2 : Nat) ^ (bit_len - 1) ≤ 2 ^ 63 :=
      Nat.pow_le_pow_right (by norm_num) (by omega)
    have h5 : (2 : Nat) ^ 64 = 2 * 2 ^ 63 := by norm_num
    have hbig : ¬(2 ^ 64 - 2 ^ bit_len + get_bits buf start_bit bit_len < 2 ^ 63) := by
      omega
    rw [if_neg hbig]
    have hle : (2 : Nat) ^ bit_len ≤ 2 ^ 64 :=
      Nat.pow_le_pow_right (by norm_num) (by omega)
    have hle' : (2 : Nat) ^ bit_len ≤ 18446744073709551616 := le_trans hle (by norm_num)
    have hcast : ((2 ^ 64 - 2 ^ bit_len + get_bits buf start_bit bit_len : Nat) : Int)
        = 2 ^ 64 - 2 ^ bit_len + (get_bits buf start_bit bit_len : Int) := by
      push_cast [Nat.cast_sub hle']
      norm_num
    rw [hcast]
    ring
  · -- sign bit clear
    have hsb' : (get_bits buf start_bit bit_len).testBit (bit_len - 1) = false := by
      simpa using hsb
    have hand : get_bits buf start_bit bit_len &&& (1 <<< (bit_len - 1)) = 0 := by
      rw [Nat.shiftLeft_eq, one_mul, Nat.and_two_pow, hsb']
      simp
    have hcond : ¬(get_bits buf start_bit bit_len &&& (1 <<< (bit_len - 1)) ≠ 0) := by
      simp [hand]
    rw [if_neg hcond]
    have hsmall : get_bits buf start_bit bit_len < 2 ^ 63 :=
      lt_of_lt_of_le hvlt (Nat.pow_le_pow_right (by norm_num) h63)
    rw [if_pos hsmall, if_neg hsb]

/-- Counterexample to the original **C4** sign-extension claim at
`bit_len = 64`: the 64-bit field `0x8000000000000000` (sign bit set, all
other bits clear) is returned as `-1`, not as the correct two's-complement
value `-2^63` — the source's `val |= (~0ULL) << bit_len` shifts by the
operand width at `bit_len = 64`, which is undefined behaviour that the
program's targets resolve by masking the shift count, ORing the word with
all-ones. -/
theorem sign_extend_64_counterexample :
    get_bits [0x80, 0, 0, 0, 0, 0, 0, 0] 0 64 = 2 ^ 63 ∧
    extract_signed [0x80, 0, 0, 0, 0, 0, 0, 0] 0 64 = -1 ∧
    extract_signed [0x80, 0, 0, 0, 0, 0, 0, 0] 0 64 ≠ -(2 ^ 63) :=
  ⟨by decide, by decide, by decide⟩

/-- **C4 (amended).** Bit-reader round-trip: for `start_bit ∈ [0,56]`,
`bit_len ∈ [1,64]` and `value < 2^bit_len`, a buffer encoded by writing
`value` MSB-first at `start_bit` reads back exactly `value` through
`get_bits` (bit 0 being the most-significant bit of byte 0).
`extract_signed` equals `get_bits` followed by two's-complement
sign-extension from bit `bit_len - 1` only for `bit_len ∈ [1,63]`: at
`bit_len = 64` the source's `(~0ULL) << bit_len` is a shift by the operand
width (undefined behaviour); under the masked-shift-count semantics of the
program's targets the word is ORed with all-ones, so every sign-set 64-bit
field is returned as `-1` instead of its two's-complement value. -/
theorem bit_reader_spec :
    (∀ start_bit bit_len value : Nat,
      start_bit ≤ 56 → 1 ≤ bit_len → bit_len ≤ 64 → value < 2 ^ bit_len →
      get_bits (encode_bits value start_bit bit_len) start_bit bit_len = value) ∧
    (∀ (buf : List Nat) (start_bit bit_len : Nat), 1 ≤ bit_len → bit_len ≤ 63 →
      extract_signed buf start_bit bit_len =
        (if (get_bits buf start_bit bit_len).testBit (bit_len - 1)
         then (get_bits buf start_bit bit_len : Int) - 2 ^ bit_len
         else (get_bits buf start_bit bit_len : Int))) ∧
    (∀ (buf : List Nat) (start_bit : Nat),
      (get_bits buf start_bit 64).testBit 63 = true →
      extract_signed buf start_bit 64 = -1) := by
  refine ⟨?_, ?_, ?_⟩
  · intro s l v _ _ _ hv
    have h := get_bits_of_putBits (encode_bits v s l) s l v ?_
    · rw [h, Nat.mod_eq_of_lt hv]
    · intro i hi
      rw [getBitAt_encode v s l (s + i) (by omega)]
      unfold putBit
      rw [if_pos ⟨Nat.le_add_right s i, by omega⟩, Nat.add_sub_cancel_left]
  · intro buf s l h1 h63
    exact extract_signed_eq buf s l h1 h63
  · intro buf s h
    exact extract_signed_64 buf s h

/-- Witness for `bit_reader_spec` at concrete inputs: value `0xA5` written at
bit 3 in a 9-bit field reads back, an 8-bit field `0x80` sign-extends to
`-128`, and a sign-set 64-bit field comes back as `-1`. -/
theorem bit_reader_spec_witness :
    get_bits (encode_bits 0xA5 3 9) 3 9 = 0xA5 ∧
    extract_signed [0x80] 0 8 =
      (if (get_bits [0x80] 0 8).testBit 7
       then (get_bits [0x80] 0 8 : Int) - 2 ^ 8
       else (get_bits [0x80] 0 8 : Int)) ∧
    extract_signed [0xFF, 0, 0, 0, 0, 0, 0, 1] 0 64 = -1 :=
  ⟨bit_reader_spec.1 3 9 0xA5 (by norm_num) (by norm_num) (by norm_num) (by norm_num),
   bit_reader_spec.2.1 [0x80] 0 8 (by norm_num) (by norm_num),
   bit_reader_spec.2.2 [0xFF, 0, 0, 0, 0, 0, 0, 1] 0 (by decide)⟩

/-! ## C1 / C2: dispatch, return value and CRC handling of
`analyze_rtcm_message` -/

/-- On any buffer of length ≥ 6 starting with `0xD3`, `analyze_rtcm_message`
takes the preamble branch: it returns the 12-bit type and runs the decoders
(when output is not suppressed) with no reference to the CRC. -/
theorem analyze_rtcm_message_d3 (data : List Nat) (length : Nat) (suppress : Bool)
    (h6 : 6 ≤ length) (hd3 : data.getD 0 0 = 0xD3) :
    analyze_rtcm_message data length suppress =
      { ret := (rtcm_msg_type data : Int)
        r1005 := if ¬suppress ∧ rtcm_msg_type data = 1005
                 then decode_rtcm_1005 (data.drop 3) (rtcm_msg_length data) else none
        msm7 := if ¬suppress ∧ is_msm7_type (rtcm_msg_type data)
                then decode_rtcm_msm7_full (data.drop 3) (rtcm_msg_length data) else none } := by
  unfold analyze_rtcm_message
  rw [if_neg (by omega), if_pos hd3]

set_option maxRecDepth 100000 in
/-- **C1 counterexample.** A complete type-1005 frame with a wrong trailing
CRC: `analyze_rtcm_message` dispatches it and returns 1005, and
`decode_rtcm_1005` does *not* refuse — it extracts structured fields from
the CRC-invalid payload. -/
theorem crc_mismatch_decoder_refusal_counterexample :
    rtcm_crc_ok frame1005bad = false ∧
    frame1005bad.getD 0 0 = 0xD3 ∧
    frame1005bad.length = rtcm_msg_length frame1005bad + 6 ∧
    (analyze_rtcm_message frame1005bad 31 false).ret = 1005 ∧
    (analyze_rtcm_message frame1005bad 31 false).r1005 ≠ none := by
  refine ⟨by decide, by decide, by decide, by decide, by decide⟩

/-- **C1 (amended).** For every buffer of length ≥ 6 whose first byte is
`0xD3` and whose trailing CRC does not match, `analyze_rtcm_message` still
dispatches the frame and returns the 12-bit message type; the specialized
decoders are invoked on the payload regardless of the CRC (their only
refusal is the payload-length check: the 1005 decoder interprets the
payload whenever the declared length is at least 19 bytes). -/
theorem crc_mismatch_dispatch_spec (data : List Nat) (length : Nat)
    (h6 : 6 ≤ length) (hd3 : data.getD 0 0 = 0xD3)
    (hcrc : rtcm_crc_ok data = false) :
    (analyze_rtcm_message data length false).ret = (rtcm_msg_type data : Int) ∧
    (analyze_rtcm_message data length false).r1005 =
      (if rtcm_msg_type data = 1005
       then decode_rtcm_1005 (data.drop 3) (rtcm_msg_length data) else none) ∧
    (rtcm_msg_type data = 1005 → 19 ≤ rtcm_msg_length data →
      (analyze_rtcm_message data length false).r1005 ≠ none) := by
  rw [analyze_rtcm_message_d3 data length false h6 hd3]
  refine ⟨rfl, by simp, ?_⟩
  intro ht hlen
  have hdec : decode_rtcm_1005 (data.drop 3) (rtcm_msg_length data) ≠ none := by
    unfold decode_rtcm_1005
    rw [if_neg (Nat.not_lt.mpr hlen)]
    simp
  simpa [ht] using hdec

set_option maxRecDepth 100000 in
/-- Witness for `crc_mismatch_dispatch_spec` at the concrete CRC-invalid
frame `frame1005bad`. -/
theorem crc_mismatch_dispatch_spec_witness :
    (analyze_rtcm_message frame1005bad 31 false).ret = (rtcm_msg_type frame1005bad : Int) ∧
    (analyze_rtcm_message frame1005bad 31 false).r1005 ≠ none := by
  have h := crc_mismatch_dispatch_spec frame1005bad 31 (by norm_num) (by decide) (by decide)
  exact ⟨h.1, h.2.2 (by decide) (by decide)⟩

/-- **C2 counterexample.** A 6-byte buffer whose declared frame length is 38:
`analyze_rtcm_message` does not fail with a `Truncated` error — it returns
the message type 1005. -/
theorem truncated_returns_type_counterexample :
    truncated1005.length = 6 ∧
    truncated1005.length < rtcm_msg_length truncated1005 + 6 ∧
    (analyze_rtcm_message truncated1005 6 false).ret = 1005 ∧
    (analyze_rtcm_message truncated1005 6 false).ret ≠ -1 := by
  refine ⟨by decide, by decide, by decide, by decide⟩

/-- **C2 (amended).** For every buffer of length ≥ 6:
`analyze_rtcm_message` returns `-1` iff the first byte is not `0xD3`;
otherwise it returns the 12-bit message type — including when the buffer is
shorter than the declared frame length (no `Truncated` error is returned).
When a specialized decoder needs more payload bytes than declared (1005
with a declared length below 19), it emits no structured fields while
`analyze_rtcm_message` still returns the type, so the message is counted. -/
theorem analyze_return_spec (data : List Nat) (length : Nat) (h6 : 6 ≤ length) :
    ((data.getD 0 0 ≠ 0xD3) → (analyze_rtcm_message data length false).ret = -1) ∧
    (data.getD 0 0 = 0xD3 →
      (analyze_rtcm_message data length false).ret = (rtcm_msg_type data : Int)) ∧
    (data.getD 0 0 = 0xD3 → rtcm_msg_type data = 1005 → rtcm_msg_length data < 19 →
      (analyze_rtcm_message data length false).r1005 = none ∧
      (analyze_rtcm_message data length false).ret = 1005) := by
  refine ⟨?_, ?_, ?_⟩
  · intro hnd3
    unfold analyze_rtcm_message
    rw [if_neg (by omega), if_neg hnd3]
  · intro hd3
    rw [analyze_rtcm_message_d3 data length false h6 hd3]
  · intro hd3 ht hlen
    rw [analyze_rtcm_message_d3 data length false h6 hd3]
    have hdec : decode_rtcm_1005 (data.drop 3) (rtcm_msg_length data) = none := by
      unfold decode_rtcm_1005
      rw [if_pos hlen]
    constructor
    · simpa [ht] using hdec
    · simp [ht]

/-- Witness for `analyze_return_spec`: a non-RTCM buffer yields `-1`, and
the complete-but-schema-short 1005 frame `short1005` yields the type 1005
with no structured fields. -/
theorem analyze_return_spec_witness :
    (analyze_rtcm_message [0, 1, 2, 3, 4, 5] 6 false).ret = -1 ∧
    (analyze_rtcm_message short1005 8 false).r1005 = none ∧
    (analyze_rtcm_message short1005 8 false).ret = 1005 := by
  have h1 := analyze_return_spec [0, 1, 2, 3, 4, 5] 6 (by norm_num)
  have h2 := analyze_return_spec short1005 8 (by norm_num)
  exact ⟨h1.1 (by decide), (h2.2.2 (by decide) (by decide) (by decide)).1,
    (h2.2.2 (by decide) (by decide) (by decide)).2⟩

/-! ## C5: MSM7 mask interpretation -/

theorem length_filterMap_if {α β : Type} (l : List α) (p : α → Prop) [DecidablePred p]
    (f : α → β) :
    (l.filterMap (fun a => if p a then some (f a) else none)).length =
      l.countP (fun a => decide (p a)) := by
  induction l with
  | nil => rfl
  | cons a l ih =>
    rw [List.filterMap_cons, List.countP_cons]
    by_cases h : p a <;> simp [h, ih]

theorem filterMap_if_eq_map_filter {α β : Type} (l : List α) (p : α → Prop)
    [DecidablePred p] (f : α → β) :
    l.filterMap (fun a => if p a then some (f a) else none) =
      (l.filter (fun a => decide (p a))).map f := by
  induction l with
  | nil => rfl
  | cons a l ih =>
    rw [List.filterMap_cons, List.filter_cons]
    by_cases h : p a <;> simp [h, ih]

theorem and_one_eq_one_iff_testBit (n k : Nat) :
    ((n >>> k) &&& 1 = 1) ↔ n.testBit k := by
  rw [Nat.and_one_is_mod, Nat.testBit_to_div_mod, Nat.shiftRight_eq_div_pow]
  simp

theorem popcount_step (n : Nat) : popcount n = popcount (n / 2) + n % 2 := by
  by_cases h : n = 0
  · subst h
    rfl
  · rw [popcount, if_neg h]

theorem countP_range_rev_eq_popcount :
    ∀ (w n : Nat), n < 2 ^ w →
    (List.range w).countP (fun i => decide ((n >>> (w - 1 - i)) &&& 1 = 1)) = popcount n := by
  intro w
  induction w with
  | zero =>
    intro n h
    have : n = 0 := by omega
    subst this
    rw [popcount]
    rfl
  | succ w ih =>
    intro n h
    rw [List.range_succ, List.countP_append]
    have hmain : (List.range w).countP (fun i => decide ((n >>> (w + 1 - 1 - i)) &&& 1 = 1)) =
        (List.range w).countP (fun i => decide (((n / 2) >>> (w - 1 - i)) &&& 1 = 1)) := by
      apply List.countP_congr
      intro i hi
      have hiw : i < w := List.mem_range.mp hi
      have e : w + 1 - 1 - i = 1 + (w - 1 - i) := by omega
      simp only [decide_eq_true_eq]
      rw [e, Nat.shiftRight_add, Nat.shiftRight_one]
    have hp : (2 : Nat) ^ (w + 1) = 2 * 2 ^ w := by rw [pow_succ, Nat.mul_comm]
    rw [hmain, ih (n / 2) (by omega)]
    have hlast : List.countP (fun i => decide ((n >>> (w + 1 - 1 - i)) &&& 1 = 1)) [w] =
        n % 2 := by
      have e : w + 1 - 1 - w = 0 := by omega
      rw [List.countP_cons]
      simp only [List.countP_nil, e, Nat.shiftRight_zero, Nat.and_one_is_mod,
        decide_eq_true_eq, Nat.zero_add]
      have : n % 2 = 0 ∨ n % 2 = 1 := by omega
      rcases this with h2 | h2 <;> simp [h2]
    rw [hlast, popcount_step n]

theorem pairwise_lt_filterMap_if (n : Nat) (p : Nat → Prop) [DecidablePred p] :
    List.Pairwise (· < ·)
      ((List.range n).filterMap (fun i => if p i then some (i + 1) else none)) := by
  rw [filterMap_if_eq_map_filter, List.pairwise_map]
  have hs : ((List.range n).filter (fun a => decide (p a))).Sublist (List.range n) :=
    List.filter_sublist _
  exact ((List.pairwise_lt_range n).sublist hs).imp (by omega)

theorem mem_mask_prns_iff (mask p : Nat) :
    (p ∈ (List.range 64).filterMap
      (fun i => if (mask >>> (63 - i)) &&& 1 = 1 then some (i + 1) else none)) ↔
    (1 ≤ p ∧ p ≤ 64 ∧ mask.testBit (64 - p)) := by
  rw [List.mem_filterMap]
  constructor
  · rintro ⟨i, hi, hfi⟩
    rw [List.mem_range] at hi
    by_cases hb : (mask >>> (63 - i)) &&& 1 = 1
    · rw [if_pos hb] at hfi
      have hp : p = i + 1 := (Option.some.injEq _ _).mp hfi.symm
      subst hp
      have e : 64 - (i + 1) = 63 - i := by omega
      rw [e]
      exact ⟨by omega, by omega, (and_one_eq_one_iff_testBit mask (63 - i)).mp hb⟩
    · rw [if_neg hb] at hfi
      cases hfi
  · rintro ⟨h1, h64, htb⟩
    refine ⟨p - 1, List.mem_range.mpr (by omega), ?_⟩
    have e : 63 - (p - 1) = 64 - p := by omega
    rw [e, if_pos ((and_one_eq_one_iff_testBit mask (64 - p)).mpr htb)]
    congr 1
    omega

theorem countP_range_eq_sum (n : Nat) (f : Nat → Nat) (hf : ∀ i, i < n → f i < 2) :
    (List.range n).countP (fun i => decide (f i = 1)) = ∑ i ∈ Finset.range n, f i := by
  induction n with
  | zero => rfl
  | succ n ih =>
    rw [List.range_succ, List.countP_append, Finset.sum_range_succ,
      ih (fun i hi => hf i (by omega))]
    have h2 := hf n (by omega)
    have : f n = 0 ∨ f n = 1 := by omega
    rcases this with h | h <;> simp [List.countP_cons, h]

theorem length_cell_flatMap (payload : List Nat) (ns ng : Nat) :
    ((List.range ns).flatMap (fun s => (List.range ng).filterMap
      (fun g => if get_bits payload (157 + s * ng + g) 1 = 1 then some (s, g) else none))).length
    = ∑ s ∈ Finset.range ns, ∑ g ∈ Finset.range ng, get_bits payload (157 + s * ng + g) 1 := by
  induction ns with
  | zero => rfl
  | succ ns ih =>
    rw [List.range_succ, List.flatMap_append, List.length_append, ih, Finset.sum_range_succ]
    congr 1
    simp only [List.flatMap_cons, List.flatMap_nil, List.append_nil]
    rw [length_filterMap_if]
    exact countP_range_eq_sum ng _ (fun g _ => by
      have := get_bits_lt payload (157 + ns * ng + g) 1
      norm_num at this
      omega)

theorem sat_prns_length_eq_popcount (mask : Nat) (h : mask < 2 ^ 64) :
    ((List.range 64).filterMap
      (fun i => if (mask >>> (63 - i)) &&& 1 = 1 then some (i + 1) else none)).length =
    popcount mask := by
  rw [length_filterMap_if]
  have hc := countP_range_rev_eq_popcount 64 mask h
  norm_num at hc
  rw [← hc]
  apply List.countP_congr
  intro i _
  simp only [decide_eq_true_eq]
  exact and_one_eq_one_iff_testBit mask (63 - i)

theorem sig_ids_length_eq_popcount (mask : Nat) (h : mask < 2 ^ 32) :
    ((List.range 32).filterMap
      (fun i => if (mask >>> (31 - i)) &&& 1 = 1 then some (i + 1) else none)).length =
    popcount mask := by
  rw [length_filterMap_if]
  have hc := countP_range_rev_eq_popcount 32 mask h
  norm_num at hc
  rw [← hc]
  apply List.countP_congr
  intro i _
  simp only [decide_eq_true_eq]
  exact and_one_eq_one_iff_testBit mask (31 - i)

set_option maxRecDepth 100000 in
set_option maxHeartbeats 1000000 in
/-- **C5.** For every MSM7 payload of at least 20 bytes the decoder
succeeds and reports: the satellite count (`sat_prns.length`) as the
popcount of the 64-bit satellite mask; the signal count as the popcount of
the 32-bit signal mask; the satellite list ascending, containing exactly
the PRNs `p ∈ [1,64]` whose mask bit (from the MSB) is set; the cell count
as the popcount of the `num_sats × num_sigs` cell-mask matrix; and it
decodes all active cells without truncation (`cells.length = num_cells`).
In particular, satellite mask `0x8000000000000001` and signal mask
`0x80000001` with all four cells set yield exactly 2 satellites, 2 signals
and 4 cells, in satellite-major mask order. -/
theorem msm7_decode_spec :
    (∀ (payload : List Nat) (payload_len : Nat), 20 ≤ payload_len →
      ∀ d, decode_rtcm_msm7_full payload payload_len = some d →
        d.sat_prns.length = popcount d.sat_mask ∧
        d.sig_ids.length = popcount d.sig_mask ∧
        List.Pairwise (· < ·) d.sat_prns ∧
        (∀ p, p ∈ d.sat_prns ↔ 1 ≤ p ∧ p ≤ 64 ∧ d.sat_mask.testBit (64 - p)) ∧
        d.num_cells = ∑ s ∈ Finset.range d.sat_prns.length,
          ∑ g ∈ Finset.range d.sig_ids.length,
            get_bits payload (157 + s * d.sig_ids.length + g) 1 ∧
        d.cells.length = d.num_cells ∧
        d.sats.length = d.sat_prns.length) ∧
    (∀ (payload : List Nat) (payload_len : Nat), 20 ≤ payload_len →
      (decode_rtcm_msm7_full payload payload_len).isSome) ∧
    ((decode_rtcm_msm7_full msm7pay 70).map
      (fun d => (d.sat_prns, d.sig_ids, d.num_cells, d.cells.map (fun c => (c.prn, c.sig)))) =
      some ([1, 64], [1, 32], 4, [(1, 1), (1, 32), (64, 1), (64, 32)])) := by
  refine ⟨?_, ?_, by decide⟩
  · intro payload payload_len h20 d hd
    unfold decode_rtcm_msm7_full at hd
    rw [if_neg (Nat.not_lt.mpr h20)] at hd
    have hd' := (Option.some.injEq _ _).mp hd
    subst hd'
    refine ⟨?_, ?_, ?_, ?_, ?_, ?_, ?_⟩
    · exact sat_prns_length_eq_popcount _ (get_bits_lt payload 61 64)
    · exact sig_ids_length_eq_popcount _ (get_bits_lt payload 125 32)
    · exact pairwise_lt_filterMap_if 64
        (fun i => (get_bits payload 61 64 >>> (63 - i)) &&& 1 = 1)
    · intro p
      exact mem_mask_prns_iff (get_bits payload 61 64) p
    · exact length_cell_flatMap payload _ _
    · dsimp only
      rw [List.length_map, List.enum_length]
    · dsimp only
      rw [List.length_map, List.length_range]
  · intro payload payload_len h20
    unfold decode_rtcm_msm7_full
    rw [if_neg (Nat.not_lt.mpr h20)]
    rfl

/-- Witness for `msm7_decode_spec` at the crafted payload `msm7pay`. -/
theorem msm7_decode_spec_witness : (decode_rtcm_msm7_full msm7pay 70).isSome :=
  msm7_decode_spec.2.1 msm7pay 70 (by norm_num)

/-! ## C6 / C10: the stream framer -/

/-- `framerInner` leaves a complete frame intact only by emitting it:
on a buffer that is exactly one complete frame it emits that frame and
clears the buffer. -/
theorem framerInner_complete (st : List Nat)
    (hd3 : st.getD 0 0 = 0xD3)
    (hlen : st.length = (((st.getD 1 0 &&& 0x03) <<< 8) ||| st.getD 2 0) + 6) :
    framerInner st = ([], [st]) := by
  unfold framerInner
  rw [if_neg (by omega), if_neg (by rw [hd3]; exact fun h => h rfl)]
  rw [if_neg (by omega)]
  have hdrop : st.drop ((((st.getD 1 0 &&& 0x03) <<< 8) ||| st.getD 2 0) + 6) = [] :=
    List.drop_eq_nil_of_le (by omega)
  have htake : st.take ((((st.getD 1 0 &&& 0x03) <<< 8) ||| st.getD 2 0) + 6) = st := by
    rw [← hlen, List.take_length]
  have h0 : framerInner [] = ([], []) := by
    unfold framerInner
    simp
  rw [hdrop, htake]
  simp [h0]

/-- `framerInner` keeps a partial frame buffered: a buffer that starts with
the preamble but is shorter than the declared frame length is returned
unchanged with no emission. -/
theorem framerInner_partial (st : List Nat)
    (hd3 : st.getD 0 0 = 0xD3)
    (hshort : st.length < (((st.getD 1 0 &&& 0x03) <<< 8) ||| st.getD 2 0) + 6) :
    framerInner st = (st, []) := by
  unfold framerInner
  by_cases h3 : st.length < 3
  · rw [if_pos h3]
  · rw [if_neg h3, if_neg (by rw [hd3]; exact fun h => h rfl), if_pos hshort]

/-- The declared payload length is at most 1023 when byte 2 is a byte. -/
theorem rtcm_msg_length_le (data : List Nat) (h2 : data.getD 2 0 < 256) :
    rtcm_msg_length data ≤ 1023 := by
  unfold rtcm_msg_length
  have ha : data.getD 1 0 &&& 0x03 ≤ 3 := Nat.and_le_right
  have := Nat.shiftLeft_or_add (data.getD 1 0 &&& 0x03) 8 (data.getD 2 0) h2
  rw [this, Nat.shiftLeft_eq]
  omega

theorem processChunk_nil (st : List Nat) : processChunk st [] = (st, []) := by
  unfold processChunk
  simp

theorem getD_take_of_lt (l : List Nat) (n i : Nat) (h : i < n) :
    (l.take n).getD i 0 = l.getD i 0 := by
  rw [List.getD_eq_getElem?_getD, List.getD_eq_getElem?_getD, List.getElem?_take, if_pos h]

theorem getD_lt_of_forall (l : List Nat) (i : Nat) (hb : ∀ b ∈ l, b < 256)
    (hi : i < l.length) : l.getD i 0 < 256 := by
  rw [List.getD_eq_getElem?_getD, List.getElem?_eq_getElem hi]
  exact hb _ (List.getElem_mem hi)

/-- Feeding one complete frame as a single chunk into an empty framer emits
exactly that frame and leaves the buffer empty. -/
theorem processChunk_whole (frame : List Nat)
    (hd3 : frame.getD 0 0 = 0xD3)
    (h2 : frame.getD 2 0 < 256)
    (hlen : frame.length = rtcm_msg_length frame + 6) :
    processChunk [] frame = ([], [frame]) := by
  have hml := rtcm_msg_length_le frame h2
  have hne : ¬(frame.length = 0) := by omega
  have hscan : scanIfEmpty [] frame = frame := by
    unfold scanIfEmpty
    rw [if_pos (show ([] : List Nat).length = 0 from rfl)]
    cases frame with
    | nil => simp at hne
    | cons a l =>
      have ha : a = 0xD3 := by simpa using hd3
      rw [List.dropWhile_cons, ha]
      simp
  have hinner : framerInner frame = ([], [frame]) := by
    apply framerInner_complete frame hd3
    unfold rtcm_msg_length at hlen
    exact hlen
  have hmin : min frame.length (4096 - ([] : List Nat).length) = frame.length := by
    simp
    omega
  unfold processChunk
  rw [if_neg hne]
  simp only [hscan, hmin]
  rw [if_neg hne, if_neg hne, List.take_length, List.nil_append, hinner,
    List.drop_length, processChunk_nil]
  simp

/-- One byte fed to the framer: it is buffered, and the frame is emitted
exactly when the buffered prefix reaches the declared frame length. -/
theorem processChunk_one_byte (frame : List Nat) (k : Nat)
    (hd3 : frame.getD 0 0 = 0xD3)
    (h2 : frame.getD 2 0 < 256)
    (hlen : frame.length = rtcm_msg_length frame + 6)
    (hk : k < frame.length) :
    processChunk (frame.take k) [frame.getD k 0] =
      (if k + 1 = frame.length then ([], [frame]) else (frame.take (k + 1), [])) := by
  have hml := rtcm_msg_length_le frame h2
  have htk : (frame.take k).length = k := by
    rw [List.length_take]
    omega
  have hone : ¬(([frame.getD k 0] : List Nat).length = 0) := by simp
  have hscan : scanIfEmpty (frame.take k) [frame.getD k 0] = [frame.getD k 0] := by
    unfold scanIfEmpty
    by_cases hk0 : k = 0
    · subst hk0
      rw [if_pos (by simp)]
      have hb : frame.getD 0 0 = 0xD3 := hd3
      rw [List.dropWhile_cons, hb]
      simp
    · rw [if_neg (by omega)]
  have hmin : min ([frame.getD k 0] : List Nat).length (4096 - (frame.take k).length) = 1 := by
    simp only [List.length_cons, List.length_nil, htk]
    omega
  have happ : frame.take k ++ [frame.getD k 0] = frame.take (k + 1) := by
    rw [List.take_succ, List.getD_eq_getElem?_getD, List.getElem?_eq_getElem hk]
    rfl
  unfold processChunk
  rw [if_neg hone]
  simp only [hscan, hmin]
  rw [if_neg hone, if_neg (by omega : ¬(1 = 0))]
  by_cases hk1 : k + 1 = frame.length
  · rw [if_pos hk1]
    have hinner : framerInner frame = ([], [frame]) := by
      apply framerInner_complete frame hd3
      unfold rtcm_msg_length at hlen
      exact hlen
    have htk1 : frame.take (k + 1) = frame := by rw [hk1, List.take_length]
    simp only [List.take, List.drop, happ, htk1, hinner, processChunk_nil,
      List.append_nil]
  · rw [if_neg hk1]
    have hlt : k + 1 < frame.length := by omega
    have hinner : framerInner (frame.take (k + 1)) = (frame.take (k + 1), []) := by
      apply framerInner_partial
      · rw [getD_take_of_lt frame (k + 1) 0 (by omega)]
        exact hd3
      · rw [List.length_take]
        by_cases h3 : k + 1 < 3
        · omega
        · have e1 : (frame.take (k + 1)).getD 1 0 = frame.getD 1 0 :=
            getD_take_of_lt frame (k + 1) 1 (by omega)
          have e2 : (frame.take (k + 1)).getD 2 0 = frame.getD 2 0 :=
            getD_take_of_lt frame (k + 1) 2 (by omega)
          rw [e1, e2]
          unfold rtcm_msg_length at hlen
          omega
    simp only [List.take, List.drop, happ, hinner, processChunk_nil, List.nil_append]

/-- State of the byte-at-a-time feed after the first `k` bytes of a valid
frame: the prefix is buffered until the last byte arrives, at which point
the frame is emitted and the buffer cleared. -/
theorem feedBytes_take (frame : List Nat)
    (hd3 : frame.getD 0 0 = 0xD3)
    (h2 : frame.getD 2 0 < 256)
    (hlen : frame.length = rtcm_msg_length frame + 6) :
    ∀ k, k ≤ frame.length →
      feedBytes [] (frame.take k) =
        (if k < frame.length then (frame.take k, []) else ([], [frame])) := by
  intro k
  induction k with
  | zero =>
    intro _
    rw [if_pos (by omega)]
    rfl
  | succ k ih =>
    intro hk1
    have hk : k < frame.length := by omega
    have happ : frame.take (k + 1) = frame.take k ++ [frame.getD k 0] := by
      rw [List.take_succ, List.getD_eq_getElem?_getD, List.getElem?_eq_getElem hk]
      rfl
    rw [happ]
    unfold feedBytes
    rw [List.foldl_append]
    have hstep := ih (by omega)
    rw [if_pos hk] at hstep
    unfold feedBytes at hstep
    rw [hstep]
    simp only [List.foldl_cons, List.foldl_nil]
    rw [processChunk_one_byte frame k hd3 h2 hlen hk]
    by_cases hk2 : k + 1 = frame.length
    · rw [if_pos hk2, if_neg (by omega)]
      simp
    · rw [if_neg hk2, if_pos (by omega)]
      simp [happ]

/-- **C6.** Feeding a valid RTCM frame to the stream framer one byte at a
time (each chunk appended to the persistent `msg_buffer` state) causes the
same single frame, with identical bytes and boundaries, to be handed to
`analyze_rtcm_message` as feeding the entire frame in one chunk. -/
theorem framer_byte_at_a_time_equiv (frame : List Nat)
    (hd3 : frame.getD 0 0 = 0xD3)
    (hbytes : ∀ b ∈ frame, b < 256)
    (hlen : frame.length = rtcm_msg_length frame + 6) :
    processChunk [] frame = ([], [frame]) ∧
    feedBytes [] frame = ([], [frame]) := by
  have h2 : frame.getD 2 0 < 256 := getD_lt_of_forall frame 2 hbytes (by omega)
  refine ⟨processChunk_whole frame hd3 h2 hlen, ?_⟩
  have h := feedBytes_take frame hd3 h2 hlen frame.length le_rfl
  rw [List.take_length, if_neg (by omega)] at h
  exact h

/-- Witness for `framer_byte_at_a_time_equiv` at the concrete CRC-correct
frame `goodframe`. -/
theorem framer_byte_at_a_time_equiv_witness :
    processChunk [] goodframe = ([], [goodframe]) ∧
    feedBytes [] goodframe = ([], [goodframe]) :=
  framer_byte_at_a_time_equiv goodframe (by decide) (by decide) (by decide)

/-- Every frame emitted by the inner framing loop starts with the `0xD3`
preamble and is exactly `declared payload length + 6` bytes long. -/
theorem framerInner_frames :
    ∀ (st : List Nat), ∀ f ∈ (framerInner st).2,
      f.getD 0 0 = 0xD3 ∧ f.length = rtcm_msg_length f + 6 := by
  suffices H : ∀ (n : Nat) (st : List Nat), st.length ≤ n →
      ∀ f ∈ (framerInner st).2, f.getD 0 0 = 0xD3 ∧ f.length = rtcm_msg_length f + 6 by
    intro st
    exact H st.length st le_rfl
  intro n
  induction n with
  | zero =>
    intro st hle f hf
    have : st = [] := List.length_eq_zero.mp (by omega)
    subst this
    rw [show framerInner [] = ([], []) from by unfold framerInner; simp] at hf
    cases hf
  | succ n ih =>
    intro st hle f hf
    unfold framerInner at hf
    by_cases h3 : st.length < 3
    · rw [if_pos h3] at hf
      cases hf
    · rw [if_neg h3] at hf
      by_cases hd : st.getD 0 0 ≠ 0xD3
      · rw [if_pos hd] at hf
        exact ih (st.drop 1) (by simp [List.length_drop]; omega) f hf
      · rw [if_neg hd] at hf
        push_neg at hd
        by_cases hsh : st.length < (((st.getD 1 0 &&& 0x03) <<< 8) ||| st.getD 2 0) + 6
        · rw [if_pos hsh] at hf
          cases hf
        · rw [if_neg hsh] at hf
          simp only at hf
          rcases List.mem_cons.mp hf with hfe | hfr
          · subst hfe
            constructor
            · rw [getD_take_of_lt st _ 0 (by omega)]
              exact hd
            · rw [List.length_take, min_eq_left (by omega)]
              unfold rtcm_msg_length
              rw [getD_take_of_lt st _ 1 (by omega), getD_take_of_lt st _ 2 (by omega)]
          · exact ih (st.drop ((((st.getD 1 0 &&& 0x03) <<< 8) ||| st.getD 2 0) + 6))
              (by simp [List.length_drop]; omega) f hfr

/-- **C10.** In the streaming session loop, `analyze_rtcm_message` is
invoked only on buffers that begin with the `0xD3` preamble and hold the
complete declared frame: every frame emitted by `processChunk` (the
per-`recv` framing loop over the persistent `msg_buffer`) has first byte
`0xD3` and length exactly `declared payload length + 6` — the length
argument handed to the decoder never exceeds the bytes accumulated, and no
partially received frame is emitted. -/
theorem framer_emits_only_complete_frames :
    ∀ (st chunk : List Nat), ∀ f ∈ (processChunk st chunk).2,
      f.getD 0 0 = 0xD3 ∧ f.length = rtcm_msg_length f + 6 := by
  suffices H : ∀ (n : Nat) (st chunk : List Nat), chunk.length ≤ n →
      ∀ f ∈ (processChunk st chunk).2,
        f.getD 0 0 = 0xD3 ∧ f.length = rtcm_msg_length f + 6 by
    intro st chunk
    exact H chunk.length st chunk le_rfl
  intro n
  induction n with
  | zero =>
    intro st chunk hle f hf
    have : chunk = [] := List.length_eq_zero.mp (by omega)
    subst this
    rw [processChunk_nil] at hf
    cases hf
  | succ n ih =>
    intro st chunk hle f hf
    unfold processChunk at hf
    by_cases h0 : chunk.length = 0
    · rw [if_pos h0] at hf
      cases hf
    · rw [if_neg h0] at hf
      have hd : (scanIfEmpty st chunk).length ≤ chunk.length := by
        unfold scanIfEmpty
        split
        · exact (List.dropWhile_sublist _).length_le
        · exact le_rfl
      by_cases h1 : (scanIfEmpty st chunk).length = 0
      · rw [if_pos h1] at hf
        cases hf
      · rw [if_neg h1] at hf
        by_cases hm : min (scanIfEmpty st chunk).length (4096 - st.length) = 0
        · rw [if_pos hm] at hf
          cases hf
        · rw [if_neg hm] at hf
          simp only at hf
          rcases List.mem_append.mp hf with hfi | hfr
          · exact framerInner_frames _ f hfi
          · refine ih _ _ ?_ f hfr
            simp only [List.length_drop]
            omega

/-- Witness for `framer_emits_only_complete_frames` at the concrete session
input `goodframe` fed from an empty buffer. -/
theorem framer_emits_only_complete_frames_witness :
    goodframe.getD 0 0 = 0xD3 ∧ goodframe.length = rtcm_msg_length goodframe + 6 :=
  framer_emits_only_complete_frames [] goodframe goodframe (by
    rw [processChunk_whole goodframe (by decide) (by decide) (by decide)]
    exact List.mem_singleton.mpr rfl)

/-! ## C7: per-type inter-arrival statistics -/

theorem statsUpdate_foldl (T : Nat) (hT0 : 0 < T) (hT : T < 4096) :
    ∀ (ts : List ℚ) (f : Nat → MsgStats),
      (ts.foldl (fun st t => statsUpdate st (T : Int) t) f) T = ts.foldl recordObs (f T) := by
  intro ts
  induction ts with
  | nil => intro f; rfl
  | cons t ts ih =>
    intro f
    rw [List.foldl_cons, List.foldl_cons, ih]
    congr 1
    unfold statsUpdate
    rw [if_pos ⟨by exact_mod_cast hT0, by exact_mod_cast hT⟩, if_pos rfl]

theorem deltas_cons₂ (x y : ℚ) (r : List ℚ) :
    deltas (x :: y :: r) = (y - x) :: deltas (y :: r) := rfl

theorem deltas_length (ts : List ℚ) : (deltas ts).length = ts.length - 1 := by
  unfold deltas
  rw [List.length_map, List.length_zip]
  cases ts <;> simp

theorem getLastD_default_irrel (l : List ℚ) (h : l ≠ []) (d : ℚ) :
    l.getLastD d = l.getLastD 0 := by
  rw [List.getLastD_eq_getLast?, List.getLastD_eq_getLast?]
  obtain ⟨x, hx⟩ := Option.isSome_iff_exists.mp (List.getLast?_isSome.mpr h)
  rw [hx]
  rfl

theorem getLastD_cons_cons (b c : ℚ) (l : List ℚ) :
    (b :: c :: l).getLastD 0 = (c :: l).getLastD 0 := by
  rw [List.getLastD_eq_getLast?, List.getLastD_eq_getLast?, List.getLast?_cons_cons]

theorem deltas_append (l : List ℚ) (a : ℚ) (h : l ≠ []) :
    deltas (l ++ [a]) = deltas l ++ [a - l.getLastD 0] := by
  induction l with
  | nil => cases h rfl
  | cons b l ih =>
    cases l with
    | nil => rfl
    | cons c l =>
      have h1 : (b :: c :: l) ++ [a] = b :: ((c :: l) ++ [a]) := rfl
      rw [h1, show (c :: l) ++ [a] = c :: (l ++ [a]) from rfl]
      rw [deltas_cons₂, show c :: (l ++ [a]) = (c :: l) ++ [a] from rfl,
        ih (by simp), deltas_cons₂, getLastD_cons_cons]
      rfl

theorem deltas_pos (ts : List ℚ) (hch : ts.Chain' (· < ·)) :
    ∀ d ∈ deltas ts, 0 < d := by
  induction ts with
  | nil => intro d hd; cases hd
  | cons x ts ih =>
    cases ts with
    | nil => intro d hd; cases hd
    | cons y r =>
      intro d hd
      rw [deltas_cons₂] at hd
      rcases List.mem_cons.mp hd with he | hr
      · have hxy : x < y := (List.chain'_cons.mp hch).1
        subst he
        linarith
      · exact ih (List.chain'_cons.mp hch).2 d hr

theorem listMin_append (ds : List ℚ) (d : ℚ) :
    listMin (ds ++ [d]) = if ds = [] then d else min (listMin ds) d := by
  cases ds with
  | nil => rfl
  | cons e ds =>
    rw [if_neg (by simp)]
    show (ds ++ [d]).foldl min e = min (ds.foldl min e) d
    rw [List.foldl_append]
    rfl

theorem listMax_append (ds : List ℚ) (d : ℚ) :
    listMax (ds ++ [d]) = if ds = [] then d else max (listMax ds) d := by
  cases ds with
  | nil => rfl
  | cons e ds =>
    rw [if_neg (by simp)]
    show (ds ++ [d]).foldl max e = max (ds.foldl max e) d
    rw [List.foldl_append]
    rfl

theorem foldl_min_pos (ds : List ℚ) :
    ∀ a : ℚ, 0 < a → (∀ d ∈ ds, 0 < d) → 0 < ds.foldl min a := by
  induction ds with
  | nil => intro a ha _; exact ha
  | cons e ds ih =>
    intro a ha hds
    rw [List.foldl_cons]
    exact ih (min a e) (lt_min ha (hds e (by simp))) (fun d hd => hds d (by simp [hd]))

theorem listMin_pos (ds : List ℚ) (hne : ds ≠ []) (hpos : ∀ d ∈ ds, 0 < d) :
    0 < listMin ds := by
  cases ds with
  | nil => cases hne rfl
  | cons e ds =>
    exact foldl_min_pos ds e (hpos e (by simp)) (fun d hd => hpos d (by simp [hd]))

theorem foldl_min_le_init (ds : List ℚ) : ∀ a : ℚ, ds.foldl min a ≤ a := by
  induction ds with
  | nil => intro a; exact le_refl a
  | cons e ds ih =>
    intro a
    rw [List.foldl_cons]
    exact le_trans (ih (min a e)) (min_le_left a e)

theorem init_le_foldl_max (ds : List ℚ) : ∀ a : ℚ, a ≤ ds.foldl max a := by
  induction ds with
  | nil => intro a; exact le_refl a
  | cons e ds ih =>
    intro a
    rw [List.foldl_cons]
    exact le_trans (le_max_left a e) (ih (max a e))

theorem listMin_le_listMax (ds : List ℚ) (hne : ds ≠ []) : listMin ds ≤ listMax ds := by
  cases ds with
  | nil => cases hne rfl
  | cons e ds =>
    exact le_trans (foldl_min_le_init ds e) (init_le_foldl_max ds e)

theorem headD_append (l : List ℚ) (a : ℚ) (h : l ≠ []) :
    (l ++ [a]).headD 0 = l.headD 0 := by
  cases l with
  | nil => cases h rfl
  | cons b l => rfl

theorem recordObs_seen (s : MsgStats) (now : ℚ) (hs : s.seen = true) :
    recordObs s now =
      { count := s.count + 1
        min_dt := if now - s.last_time < s.min_dt ∨ s.min_dt = 0
                  then now - s.last_time else s.min_dt
        max_dt := if now - s.last_time > s.max_dt then now - s.last_time else s.max_dt
        sum_dt := s.sum_dt + (now - s.last_time)
        last_time := now
        seen := true } := by
  unfold recordObs
  rw [if_neg (not_not_intro hs)]

theorem recordObs_foldl :
    ∀ (ts : List ℚ), ts ≠ [] → ts.Chain' (· < ·) →
      (ts.foldl recordObs MsgStats.init).count = ts.length ∧
      (ts.foldl recordObs MsgStats.init).seen = true ∧
      (ts.foldl recordObs MsgStats.init).last_time = ts.getLastD 0 ∧
      (ts.foldl recordObs MsgStats.init).sum_dt = ts.getLastD 0 - ts.headD 0 ∧
      (ts.foldl recordObs MsgStats.init).min_dt = listMin (deltas ts) ∧
      (ts.foldl recordObs MsgStats.init).max_dt = listMax (deltas ts) := by
  intro ts
  induction ts using List.reverseRecOn with
  | nil => intro h; cases h rfl
  | append_singleton l a ih =>
    intro _ hch
    simp only [List.foldl_append, List.foldl_cons, List.foldl_nil]
    by_cases hl : l = []
    · subst hl
      simp only [List.nil_append]
      refine ⟨rfl, rfl, rfl, by simp [recordObs, MsgStats.init], rfl, rfl⟩
    · have hchl : l.Chain' (· < ·) := (List.chain'_append.mp hch).1
      obtain ⟨x, hx⟩ := Option.isSome_iff_exists.mp (List.getLast?_isSome.mpr hl)
      have hgl : l.getLastD 0 = x := by
        rw [List.getLastD_eq_getLast?, hx]
        rfl
      have hlast_lt : l.getLastD 0 < a := by
        have h3 := (List.chain'_append.mp hch).2.2
        rw [hgl]
        exact h3 x (by rw [Option.mem_def, hx]) a (by rw [Option.mem_def]; rfl)
      obtain ⟨hc, hs, hlt, hsum, hmin, hmax⟩ := ih hl hchl
      rw [recordObs_seen _ a hs]
      dsimp only
      have hdt : a - (l.foldl recordObs MsgStats.init).last_time = a - l.getLastD 0 := by
        rw [hlt]
      have hdtpos : 0 < a - (l.foldl recordObs MsgStats.init).last_time := by
        rw [hdt]
        linarith
      have hdel : deltas (l ++ [a]) = deltas l ++ [a - l.getLastD 0] := deltas_append l a hl
      refine ⟨?_, rfl, ?_, ?_, ?_, ?_⟩
      · rw [hc, List.length_append]
        rfl
      · rw [List.getLastD_concat]
      · rw [hsum, hlt, List.getLastD_concat, headD_append l a hl]
        ring
      · rw [hdel, listMin_append]
        by_cases hdl : deltas l = []
        · rw [if_pos hdl]
          have hm0 : (l.foldl recordObs MsgStats.init).min_dt = 0 := by
            rw [hmin, hdl]
            rfl
          rw [if_pos (Or.inr hm0), hdt]
        · rw [if_neg hdl, ← hmin, ← hdt]
          have hmpos : 0 < (l.foldl recordObs MsgStats.init).min_dt := by
            rw [hmin]
            exact listMin_pos _ hdl (deltas_pos l hchl)
          by_cases hlt2 : a - (l.foldl recordObs MsgStats.init).last_time <
              (l.foldl recordObs MsgStats.init).min_dt
          · rw [if_pos (Or.inl hlt2)]
            exact (min_eq_right (le_of_lt hlt2)).symm
          · rw [if_neg (fun h => h.elim hlt2 (fun h0 => absurd h0 (ne_of_gt hmpos)))]
            exact (min_eq_left (le_of_not_lt hlt2)).symm
      · rw [hdel, listMax_append]
        by_cases hdl : deltas l = []
        · rw [if_pos hdl]
          have hm0 : (l.foldl recordObs MsgStats.init).max_dt = 0 := by
            rw [hmax, hdl]
            rfl
          rw [if_pos (by rw [hm0]; exact hdtpos), hdt]
        · rw [if_neg hdl, ← hmax, ← hdt]
          by_cases hgt : a - (l.foldl recordObs MsgStats.init).last_time >
              (l.foldl recordObs MsgStats.init).max_dt
          · rw [if_pos hgt]
            exact (max_eq_right (le_of_lt hgt)).symm
          · rw [if_neg hgt]
            exact (max_eq_left (le_of_not_lt hgt)).symm

/-- **C7.** For every message type `T ∈ [1, 4096)` observed at strictly
increasing times `t₁..t_N` (N ≥ 1), the per-type statistics record
satisfies `count = N`, `sum_dt = t_N − t₁`, `min_dt` the minimum and
`max_dt` the maximum of the successive deltas; `min_dt ≤ max_dt` whenever
`count ≥ 2`, and `min_dt = 0` is the sentinel when no delta has been
recorded yet (`count = 1`). -/
theorem stats_spec (T : Nat) (hT0 : 0 < T) (hT : T < 4096) (ts : List ℚ)
    (hne : ts ≠ []) (hch : ts.Chain' (· < ·)) :
    ((ts.foldl (fun st t => statsUpdate st (T : Int) t) (fun _ => MsgStats.init)) T).count
        = ts.length ∧
    ((ts.foldl (fun st t => statsUpdate st (T : Int) t) (fun _ => MsgStats.init)) T).sum_dt
        = ts.getLastD 0 - ts.headD 0 ∧
    ((ts.foldl (fun st t => statsUpdate st (T : Int) t) (fun _ => MsgStats.init)) T).min_dt
        = listMin (deltas ts) ∧
    ((ts.foldl (fun st t => statsUpdate st (T : Int) t) (fun _ => MsgStats.init)) T).max_dt
        = listMax (deltas ts) ∧
    (2 ≤ ts.length →
      ((ts.foldl (fun st t => statsUpdate st (T : Int) t) (fun _ => MsgStats.init)) T).min_dt ≤
      ((ts.foldl (fun st t => statsUpdate st (T : Int) t) (fun _ => MsgStats.init)) T).max_dt) ∧
    (ts.length = 1 →
      ((ts.foldl (fun st t => statsUpdate st (T : Int) t) (fun _ => MsgStats.init)) T).min_dt
        = 0) := by
  have hfold := statsUpdate_foldl T hT0 hT ts (fun _ => MsgStats.init)
  obtain ⟨hc, _, _, hsum, hmin, hmax⟩ := recordObs_foldl ts hne hch
  rw [hfold]
  refine ⟨hc, hsum, hmin, hmax, ?_, ?_⟩
  · intro h2
    rw [hmin, hmax]
    apply listMin_le_listMax
    intro hdnil
    have := deltas_length ts
    rw [hdnil] at this
    simp at this
    omega
  · intro h1
    rw [hmin]
    have hd : (deltas ts).length = 0 := by
      rw [deltas_length, h1]
    rw [List.length_eq_zero.mp hd]
    rfl

/-- Witness for `stats_spec`: type 1077 observed at times 1, 3, 7, 8. -/
theorem stats_spec_witness :
    ((([1, 3, 7, 8] : List ℚ).foldl
        (fun st t => statsUpdate st ((1077 : Nat) : Int) t) (fun _ => MsgStats.init)) 1077).count
      = ([1, 3, 7, 8] : List ℚ).length ∧
    ((([1, 3, 7, 8] : List ℚ).foldl
        (fun st t => statsUpdate st ((1077 : Nat) : Int) t) (fun _ => MsgStats.init)) 1077).sum_dt
      = ([1, 3, 7, 8] : List ℚ).getLastD 0 - ([1, 3, 7, 8] : List ℚ).headD 0 := by
  have h := stats_spec 1077 (by norm_num) (by norm_num) ([1, 3, 7, 8] : List ℚ)
    (by simp) (by norm_num)
  exact ⟨h.1, h.2.1⟩

/-! ## C9: the satellite aggregator -/

/-- One step of the satellite-mask scan: only slot `s` changes; the entry
stays a 0/1 bit-set of 64 slots whose count tracks its cardinality. -/
theorem scanStep_spec (data : List Nat) (g : GnssSatStats) (s : Nat)
    (hlen : g.sat_seen.length = 64)
    (h01 : ∀ x ∈ g.sat_seen, x = 0 ∨ x = 1)
    (hs : s < 64) :
    let g' := if get_bits data (34 + s) 1 = 1 then
        if g.sat_seen.getD s 0 = 0 then
          { g with sat_seen := g.sat_seen.set s 1, count := g.count + 1 }
        else g
      else g
    g'.gnss_id = g.gnss_id ∧
    g'.sat_seen.length = 64 ∧
    (∀ x ∈ g'.sat_seen, x = 0 ∨ x = 1) ∧
    (g.count = g.sat_seen.countP (fun x => x == 1) →
      g'.count = g'.sat_seen.countP (fun x => x == 1)) ∧
    (∀ j, j < 64 →
      (g'.sat_seen.getD j 0 = 1 ↔
        (g.sat_seen.getD j 0 = 1 ∨ (j = s ∧ get_bits data (34 + s) 1 = 1)))) := by
  intro g'
  by_cases hbit : get_bits data (34 + s) 1 = 1
  · by_cases hseen : g.sat_seen.getD s 0 = 0
    · have hg' : g' = { g with sat_seen := g.sat_seen.set s 1, count := g.count + 1 } := by
        simp only [g', if_pos hbit, if_pos hseen]
      rw [hg']
      have hslen : s < g.sat_seen.length := by omega
      refine ⟨rfl, by simp [List.length_set, hlen], ?_, ?_, ?_⟩
      · intro x hx
        rcases List.mem_or_eq_of_mem_set hx with hmem | hx1
        · exact h01 x hmem
        · right; exact hx1
      · intro hcount
        have hges : g.sat_seen[s] = 0 := by
          rw [List.getD_eq_getElem?_getD, List.getElem?_eq_getElem hslen] at hseen
          simpa using hseen
        rw [List.countP_set _ _ _ _ hslen]
        simp only [hges]
        rw [hcount]
        norm_num
      · intro j hj
        by_cases hjs : j = s
        · subst hjs
          rw [List.getD_eq_getElem?_getD, List.getElem?_set_self hslen]
          simp [hseen, hbit]
        · rw [List.getD_eq_getElem?_getD, List.getElem?_set_ne (fun h => hjs h.symm),
            ← List.getD_eq_getElem?_getD]
          simp [hjs]
    · have hg' : g' = g := by
        simp only [g', if_pos hbit, if_neg hseen]
      rw [hg']
      refine ⟨rfl, hlen, h01, fun h => h, ?_⟩
      intro j hj
      by_cases hjs : j = s
      · subst hjs
        have hj1 : g.sat_seen.getD j 0 = 1 := by
          have hjlen : j < g.sat_seen.length := by omega
          have hmem : g.sat_seen.getD j 0 ∈ g.sat_seen := by
            rw [List.getD_eq_getElem?_getD, List.getElem?_eq_getElem hjlen]
            exact List.getElem_mem hjlen
          rcases h01 _ hmem with h0 | h1
          · exact absurd h0 hseen
          · exact h1
        exact iff_of_true hj1 (Or.inl hj1)
      · simp [hjs]
  · have hg' : g' = g := by
      simp only [g', if_neg hbit]
    rw [hg']
    refine ⟨rfl, hlen, h01, fun h => h, ?_⟩
    intro j hj
    simp [hbit]

/-- The satellite-mask scan up to slot `n`: the bit-set accumulates exactly
the payload bits `34 .. 34+n-1`, entries stay 0/1, and the count keeps
tracking the cardinality. -/
theorem scanSats_fold :
    ∀ (n : Nat) (data : List Nat) (g : GnssSatStats),
      g.sat_seen.length = 64 →
      (∀ x ∈ g.sat_seen, x = 0 ∨ x = 1) →
      n ≤ 64 →
      (((List.range n).foldl (fun g s =>
          if get_bits data (34 + s) 1 = 1 then
            if g.sat_seen.getD s 0 = 0 then
              { g with sat_seen := g.sat_seen.set s 1, count := g.count + 1 }
            else g
          else g) g).gnss_id = g.gnss_id) ∧
      (((List.range n).foldl (fun g s =>
          if get_bits data (34 + s) 1 = 1 then
            if g.sat_seen.getD s 0 = 0 then
              { g with sat_seen := g.sat_seen.set s 1, count := g.count + 1 }
            else g
          else g) g).sat_seen.length = 64) ∧
      (∀ x ∈ ((List.range n).foldl (fun g s =>
          if get_bits data (34 + s) 1 = 1 then
            if g.sat_seen.getD s 0 = 0 then
              { g with sat_seen := g.sat_seen.set s 1, count := g.count + 1 }
            else g
          else g) g).sat_seen, x = 0 ∨ x = 1) ∧
      (g.count = g.sat_seen.countP (fun x => x == 1) →
        ((List.range n).foldl (fun g s =>
          if get_bits data (34 + s) 1 = 1 then
            if g.sat_seen.getD s 0 = 0 then
              { g with sat_seen := g.sat_seen.set s 1, count := g.count + 1 }
            else g
          else g) g).count =
        ((List.range n).foldl (fun g s =>
          if get_bits data (34 + s) 1 = 1 then
            if g.sat_seen.getD s 0 = 0 then
              { g with sat_seen := g.sat_seen.set s 1, count := g.count + 1 }
            else g
          else g) g).sat_seen.countP (fun x => x == 1)) ∧
      (∀ j, j < 64 →
        (((List.range n).foldl (fun g s =>
          if get_bits data (34 + s) 1 = 1 then
            if g.sat_seen.getD s 0 = 0 then
              { g with sat_seen := g.sat_seen.set s 1, count := g.count + 1 }
            else g
          else g) g).sat_seen.getD j 0 = 1 ↔
          (g.sat_seen.getD j 0 = 1 ∨ (j < n ∧ get_bits data (34 + j) 1 = 1)))) := by
  intro n
  induction n with
  | zero =>
    intro data g hlen h01 _
    refine ⟨rfl, hlen, h01, fun h => h, ?_⟩
    intro j hj
    simp
  | succ n ih =>
    intro data g hlen h01 hn1
    obtain ⟨ihid, ihlen, ih01, ihcount, ihchar⟩ := ih data g hlen h01 (by omega)
    rw [List.range_succ]
    simp only [List.foldl_append, List.foldl_cons, List.foldl_nil]
    have hstep := scanStep_spec data _ n ihlen ih01 (by omega)
    obtain ⟨sid, slen, s01, scount, schar⟩ := hstep
    refine ⟨by rw [sid, ihid], slen, s01, fun h => scount (ihcount h), ?_⟩
    intro j hj
    rw [schar j hj, ihchar j hj]
    constructor
    · rintro ((h1 | ⟨hjn, hb⟩) | ⟨hjs, hb⟩)
      · exact Or.inl h1
      · exact Or.inr ⟨by omega, hb⟩
      · subst hjs
        exact Or.inr ⟨by omega, hb⟩
    · rintro (h1 | ⟨hlt, hb⟩)
      · exact Or.inl (Or.inl h1)
      · by_cases hjn : j = n
        · subst hjn
          exact Or.inr ⟨rfl, hb⟩
        · exact Or.inl (Or.inr ⟨by omega, hb⟩)

/-- `scanSats` is the range-64 fold of the mask-scan step. -/
theorem scanSats_eq_fold (data : List Nat) (g : GnssSatStats) :
    scanSats data g = (List.range 64).foldl (fun g s =>
        if get_bits data (34 + s) 1 = 1 then
          if g.sat_seen.getD s 0 = 0 then
            { g with sat_seen := g.sat_seen.set s 1, count := g.count + 1 }
          else g
        else g) g := rfl

theorem scanSats_wf (data : List Nat) (g : GnssSatStats)
    (hlen : g.sat_seen.length = 64)
    (h01 : ∀ x ∈ g.sat_seen, x = 0 ∨ x = 1) :
    (scanSats data g).sat_seen.length = 64 ∧
    (∀ x ∈ (scanSats data g).sat_seen, x = 0 ∨ x = 1) ∧
    (g.count = g.sat_seen.countP (fun x => x == 1) →
      (scanSats data g).count = (scanSats data g).sat_seen.countP (fun x => x == 1)) := by
  rw [scanSats_eq_fold]
  obtain ⟨_, h2, h3, h4, _⟩ := scanSats_fold 64 data g hlen h01 le_rfl
  exact ⟨h2, h3, h4⟩

/-- **C9.** The satellite aggregator derives the constellation id from the
message-type range (1070–1079 → GPS = 1, 1080–1089 → GLONASS = 2,
1090–1099 → Galileo = 3, 1110–1119 → QZSS = 4, 1120–1129 → BeiDou = 5,
1130–1139 → SBAS = 6, otherwise no update); its mask scan reads one bit
per slot for 64 slots starting at payload bit offset 24+6+1+3 = 34 and
sets the bit-set entry for each slot whose mask bit is 1; and it keeps
every entry's distinct-count equal to the cardinality of its bit-set after
every call. -/
theorem extract_satellites_spec :
    (∀ t, (1070 ≤ t ∧ t < 1080 → get_gnss_id_from_rtcm t = 1) ∧
          (1080 ≤ t ∧ t < 1090 → get_gnss_id_from_rtcm t = 2) ∧
          (1090 ≤ t ∧ t < 1100 → get_gnss_id_from_rtcm t = 3) ∧
          (1110 ≤ t ∧ t < 1120 → get_gnss_id_from_rtcm t = 4) ∧
          (1120 ≤ t ∧ t < 1130 → get_gnss_id_from_rtcm t = 5) ∧
          (1130 ≤ t ∧ t < 1140 → get_gnss_id_from_rtcm t = 6) ∧
          (t < 1070 ∨ (1100 ≤ t ∧ t < 1110) ∨ 1140 ≤ t → get_gnss_id_from_rtcm t = 0)) ∧
    (∀ (data : List Nat) (t : Nat) (summary : SatStatsSummary),
      get_gnss_id_from_rtcm t = 0 → extract_satellites data t summary = summary) ∧
    (∀ (data : List Nat) (g : GnssSatStats) (s : Nat),
      g.sat_seen.length = 64 → (∀ x ∈ g.sat_seen, x = 0 ∨ x = 1) → s < 64 →
      ((scanSats data g).sat_seen.getD s 0 = 1 ↔
        (g.sat_seen.getD s 0 = 1 ∨ get_bits data (34 + s) 1 = 1))) ∧
    (∀ (data : List Nat) (t : Nat) (summary : SatStatsSummary),
      satInv summary → satInv (extract_satellites data t summary)) := by
  refine ⟨?_, ?_, ?_, ?_⟩
  · intro t
    refine ⟨?_, ?_, ?_, ?_, ?_, ?_, ?_⟩ <;>
      (intro h; unfold get_gnss_id_from_rtcm; split_ifs <;> omega)
  · intro data t summary h0
    unfold extract_satellites
    rw [if_pos h0]
  · intro data g s hlen h01 hs
    rw [scanSats_eq_fold]
    obtain ⟨_, _, _, _, hchar⟩ := scanSats_fold 64 data g hlen h01 le_rfl
    rw [hchar s (by omega)]
    constructor
    · rintro (h1 | ⟨_, hb⟩)
      · exact Or.inl h1
      · exact Or.inr hb
    · rintro (h1 | hb)
      · exact Or.inl h1
      · exact Or.inr ⟨hs, hb⟩
  · intro data t summary hinv
    unfold extract_satellites
    by_cases hid : get_gnss_id_from_rtcm t = 0
    · rw [if_pos hid]
      exact hinv
    · rw [if_neg hid]
      cases hfind : summary.gnss.findIdx?
          (fun g => g.gnss_id == get_gnss_id_from_rtcm t) with
      | some idx =>
        dsimp only
        by_cases hlt : idx < summary.gnss.length
        · intro g hg
          rcases List.mem_or_eq_of_mem_set hg with hmem | hnew
          · exact hinv g hmem
          · have hentry : summary.gnss.getD idx ⟨get_gnss_id_from_rtcm t, [], 0⟩ =
                summary.gnss[idx] := by
              rw [List.getD_eq_getElem?_getD, List.getElem?_eq_getElem hlt]
              rfl
            have hmem' : summary.gnss[idx] ∈ summary.gnss := List.getElem_mem hlt
            obtain ⟨hl64, h01, hcnt⟩ := hinv _ hmem'
            have hwf := scanSats_wf data summary.gnss[idx] hl64 h01
            subst hnew
            rw [hentry]
            exact ⟨hwf.1, hwf.2.1, hwf.2.2 hcnt⟩
        · rw [List.set_eq_of_length_le (by omega)]
          exact hinv
      | none =>
        dsimp only
        by_cases h8 : summary.gnss.length < 8
        · rw [if_pos h8]
          intro g hg
          rcases List.mem_append.mp hg with hmem | hnew
          · exact hinv g hmem
          · have hfresh01 : ∀ x ∈ (List.replicate 64 0 : List Nat), x = 0 ∨ x = 1 := by
              intro x hx
              exact Or.inl (List.eq_of_mem_replicate hx)
            have hwf := scanSats_wf data ⟨get_gnss_id_from_rtcm t, List.replicate 64 0, 0⟩
              (by simp) hfresh01
            have hg' : g = scanSats data ⟨get_gnss_id_from_rtcm t, List.replicate 64 0, 0⟩ := by
              simpa using hnew
            subst hg'
            refine ⟨hwf.1, hwf.2.1, hwf.2.2 ?_⟩
            show (0 : Nat) = List.countP (fun x => x == 1) (List.replicate 64 0)
            rw [List.countP_eq_zero.mpr]
            intro x hx
            rw [List.eq_of_mem_replicate hx]
            decide
        · rw [if_neg h8]
          exact hinv

/-- Witness for `extract_satellites_spec` at concrete inputs: an MSM7
message type, an empty summary, and a fresh 64-slot entry scanned over the
crafted payload `msm7pay`. -/
theorem extract_satellites_spec_witness :
    get_gnss_id_from_rtcm 1077 = 1 ∧
    satInv (extract_satellites msm7pay 1077 ⟨[]⟩) ∧
    ((scanSats msm7pay ⟨1, List.replicate 64 0, 0⟩).sat_seen.getD 0 0 = 1 ↔
      ((⟨1, List.replicate 64 0, 0⟩ : GnssSatStats).sat_seen.getD 0 0 = 1 ∨
        get_bits msm7pay (34 + 0) 1 = 1)) :=
  ⟨(extract_satellites_spec.1 1077).1 (by norm_num),
   extract_satellites_spec.2.2.2 msm7pay 1077 ⟨[]⟩ (fun g hg => absurd hg (by simp)),
   extract_satellites_spec.2.2.1 msm7pay ⟨1, List.replicate 64 0, 0⟩ 0 (by simp)
     (fun x hx => Or.inl (List.eq_of_mem_replicate hx)) (by norm_num)⟩

theorem digitChar10_ne_star (d : Nat) : digitChar10 d ≠ '*' := by
  unfold digitChar10
  split <;> decide

theorem hexDigitChar_ne_star (d : Nat) : hexDigitChar d ≠ '*' := by
  unfold hexDigitChar
  split <;> decide

theorem decDigitsCore_ne_star (f : Nat) : ∀ n, ∀ c ∈ decDigitsCore f n, c ≠ '*' := by
  induction f with
  | zero =>
    intro n c hc
    rw [decDigitsCore, List.mem_singleton] at hc
    subst hc
    exact digitChar10_ne_star n
  | succ f ih =>
    intro n c hc
    rw [decDigitsCore] at hc
    by_cases hlt : n < 10
    · rw [if_pos hlt, List.mem_singleton] at hc
      subst hc
      exact digitChar10_ne_star n
    · rw [if_neg hlt] at hc
      rcases List.mem_append.mp hc with h | h
      · exact ih (n / 10) c h
      · rw [List.mem_singleton] at h
        subst h
        exact digitChar10_ne_star (n % 10)

theorem hexDigitsCore_ne_star (f : Nat) : ∀ n, ∀ c ∈ hexDigitsCore f n, c ≠ '*' := by
  induction f with
  | zero =>
    intro n c hc
    rw [hexDigitsCore, List.mem_singleton] at hc
    subst hc
    exact hexDigitChar_ne_star n
  | succ f ih =>
    intro n c hc
    rw [hexDigitsCore] at hc
    by_cases hlt : n < 16
    · rw [if_pos hlt, List.mem_singleton] at hc
      subst hc
      exact hexDigitChar_ne_star n
    · rw [if_neg hlt] at hc
      rcases List.mem_append.mp hc with h | h
      · exact ih (n / 16) c h
      · rw [List.mem_singleton] at h
        subst h
        exact hexDigitChar_ne_star (n % 16)

theorem noStar_append {s t : String} (hs : ∀ c ∈ s.data, c ≠ '*')
    (ht : ∀ c ∈ t.data, c ≠ '*') : ∀ c ∈ (s ++ t).data, c ≠ '*' := by
  intro c hc
  rw [String.data_append] at hc
  rcases List.mem_append.mp hc with h | h
  · exact hs c h
  · exact ht c h

theorem noStar_padZeros (w : Nat) (s : String) (hs : ∀ c ∈ s.data, c ≠ '*') :
    ∀ c ∈ (padZeros w s).data, c ≠ '*' := by
  intro c hc
  unfold padZeros at hc
  rcases List.mem_append.mp hc with h | h
  · rw [List.eq_of_mem_replicate h]
    decide
  · exact hs c h

theorem noStar_decRepr (n : Nat) : ∀ c ∈ (decRepr n).data, c ≠ '*' :=
  decDigitsCore_ne_star n n

theorem noStar_fmt02d (n : Nat) : ∀ c ∈ (fmt02d n).data, c ≠ '*' :=
  noStar_padZeros 2 _ (noStar_decRepr n)

theorem noStar_fmt03d (n : Nat) : ∀ c ∈ (fmt03d n).data, c ≠ '*' :=
  noStar_padZeros 3 _ (noStar_decRepr n)

theorem noStar_fmt07_4 (q : ℚ) : ∀ c ∈ (fmt07_4 q).data, c ≠ '*' := by
  unfold fmt07_4
  refine noStar_padZeros 7 _ ?_
  refine noStar_append (noStar_append (noStar_decRepr _) ?_) ?_
  · decide
  · exact noStar_padZeros 4 _ (noStar_decRepr _)

theorem noStar_ggaBody (lat lon : ℚ) (hh mm ss : Nat) :
    ∀ c ∈ (ggaBody lat lon hh mm ss).data, c ≠ '*' := by
  unfold ggaBody
  repeat' apply noStar_append
  all_goals first
    | decide
    | exact noStar_fmt02d _
    | exact noStar_fmt03d _
    | exact noStar_fmt07_4 _
    | exact noStar_decRepr _
    | (intro c hc; rw [List.eq_of_mem_replicate hc]; decide)
    | (intro c hc; revert hc; split <;> (intro hc; simp only [String.data] at hc; rw [List.mem_singleton] at hc; subst hc; decide))

theorem nmeaChecksumList_eq_foldl (l : List Char) (c : Nat)
    (h : ∀ ch ∈ l, ch ≠ '*') :
    nmeaChecksumList l c = l.foldl (fun c ch => c ^^^ (ch.toNat % 256)) c := by
  induction l generalizing c with
  | nil => rfl
  | cons ch rest ih =>
    rw [nmeaChecksumList, if_neg (h ch (List.mem_cons_self ch rest)), List.foldl_cons]
    exact ih _ (fun x hx => h x (List.mem_cons_of_mem ch hx))

theorem nmea_checksum_eq_xorBytes (s : String) (h : ∀ c ∈ s.data, c ≠ '*') :
    nmea_checksum s = xorBytes s :=
  nmeaChecksumList_eq_foldl s.data 0 h

theorem xorBytes_lt_aux (l : List Char) : ∀ c : Nat, c < 256 →
    l.foldl (fun c ch => c ^^^ (ch.toNat % 256)) c < 256 := by
  induction l with
  | nil => intro c hc; exact hc
  | cons ch rest ih =>
    intro c hc
    rw [List.foldl_cons]
    refine ih _ ?_
    have h4 := Nat.xor_lt_two_pow (x := c) (y := ch.toNat % 256) (n := 8)
      (by omega) (by omega)
    omega

theorem xorBytes_lt (s : String) : xorBytes s < 256 :=
  xorBytes_lt_aux s.data 0 (by norm_num)

set_option maxRecDepth 4000 in
/-- **C8.** For every latitude, longitude and UTC time, the generated GGA
sentence is `$` + body + `*` + checksum + CRLF, where the body has the
exact shape `GNGGA,hhmmss.00,ddmm.mmmm,N/S,dddmm.mmmm,E/W` followed by the
hard-coded fields `,1,08,1.0,1.5,M,0.0,M,,` (fix quality 1, satellites 08,
HDOP 1.0, altitude 1.5, geoid separation 0.0, empty age-of-differential),
and the checksum is the bytewise XOR over the body strictly between `$`
and `*`, below 256 and rendered as two uppercase hexadecimal digits; the
concrete vector lat = 52.1234, lon = 5.6789 at 12:34:56 UTC yields exactly
`$GNGGA,123456.00,5207.4040,N,00540.7340,E,1,08,1.0,1.5,M,0.0,M,,*49`. -/
theorem gga_spec :
    (∀ (lat lon : ℚ) (hh mm ss : Nat),
      create_gngga_sentence lat lon hh mm ss =
        "$" ++ ggaBody lat lon hh mm ss ++ "*" ++
          fmt02X (xorBytes (ggaBody lat lon hh mm ss)) ++ "\x0d\x0a" ∧
      xorBytes (ggaBody lat lon hh mm ss) < 256 ∧
      (∃ timestr latstr lathem lonstr lonhem : String,
        ggaBody lat lon hh mm ss =
          "GNGGA," ++ timestr ++ "," ++ latstr ++ "," ++ lathem ++ "," ++ lonstr ++
            "," ++ lonhem ++ ",1,08,1.0,1.5,M,0.0,M,," ∧
        timestr = fmt02d hh ++ fmt02d mm ++ fmt02d ss ++ ".00" ∧
        (lathem = "N" ∨ lathem = "S") ∧ (lonhem = "E" ∨ lonhem = "W"))) ∧
    create_gngga_sentence (521234/10000) (56789/10000) 12 34 56 =
      "$GNGGA,123456.00,5207.4040,N,00540.7340,E,1,08,1.0,1.5,M,0.0,M,,*49\x0d\x0a" := by
  have hfl : ∀ q : ℚ, q.floor = ⌊q⌋ := fun q => rfl
  constructor
  · intro lat lon hh mm ss
    refine ⟨?_, xorBytes_lt _, ?_⟩
    · unfold create_gngga_sentence
      rw [nmea_checksum_eq_xorBytes _ (noStar_ggaBody lat lon hh mm ss)]
    · refine ⟨fmt02d hh ++ fmt02d mm ++ fmt02d ss ++ ".00",
        fmt02d (if lat ≥ 0 then lat else -lat).floor.toNat ++
          fmt07_4 (((if lat ≥ 0 then lat else -lat) -
            ((if lat ≥ 0 then lat else -lat).floor.toNat : ℚ)) * 60),
        if lat ≥ 0 then "N" else "S",
        fmt03d (if lon ≥ 0 then lon else -lon).floor.toNat ++
          fmt07_4 (((if lon ≥ 0 then lon else -lon) -
            ((if lon ≥ 0 then lon else -lon).floor.toNat : ℚ)) * 60),
        if lon ≥ 0 then "E" else "W", ?_, rfl, ?_, ?_⟩
      · unfold ggaBody
        dsimp only
        generalize fmt02d hh ++ fmt02d mm ++ fmt02d ss ++ ".00" = T
        generalize fmt02d (if lat ≥ 0 then lat else -lat).floor.toNat = C
        generalize fmt07_4 (((if lat ≥ 0 then lat else -lat) -
          ((if lat ≥ 0 then lat else -lat).floor.toNat : ℚ)) * 60) = D
        generalize (if lat ≥ 0 then "N" else "S" : String) = H
        generalize fmt03d (if lon ≥ 0 then lon else -lon).floor.toNat = E
        generalize fmt07_4 (((if lon ≥ 0 then lon else -lon) -
          ((if lon ≥ 0 then lon else -lon).floor.toNat : ℚ)) * 60) = F
        generalize (if lon ≥ 0 then "E" else "W" : String) = K
        simp only [String.append_assoc]
      · split
        · exact Or.inl rfl
        · exact Or.inr rfl
      · split
        · exact Or.inl rfl
        · exact Or.inr rfl
  · have hb : ggaBody (521234/10000) (56789/10000) 12 34 56 =
        "GNGGA,123456.00,5207.4040,N,00540.7340,E,1,08,1.0,1.5,M,0.0,M,," := by
      unfold ggaBody
      dsimp only
      simp only [if_pos (show (521234/10000 : ℚ) ≥ 0 by norm_num),
        if_pos (show (56789/10000 : ℚ) ≥ 0 by norm_num)]
      rw [show ((521234 : ℚ)/10000).floor.toNat = 52 from by rw [hfl]; norm_num; rfl,
        show ((56789 : ℚ)/10000).floor.toNat = 5 from by rw [hfl]; norm_num; rfl]
      unfold fmt07_4
      dsimp only
      rw [show ((((521234 : ℚ)/10000 - ((52 : Nat) : ℚ)) * 60) * 10000 +
            1/2).floor.toNat = 74040 from by rw [hfl]; norm_num; rfl,
        show ((((56789 : ℚ)/10000 - ((5 : Nat) : ℚ)) * 60) * 10000 +
            1/2).floor.toNat = 407340 from by rw [hfl]; norm_num; rfl]
      decide
    have hc : nmea_checksum
        "GNGGA,123456.00,5207.4040,N,00540.7340,E,1,08,1.0,1.5,M,0.0,M,," = 73 := by
      decide
    have hx : fmt02X 73 = "49" := by decide
    unfold create_gngga_sentence
    rw [hb, hc, hx]
    decide
